import Mathlib

/-!
# Verification of the delegation program's diff codec and state machine

Shallow embedding of the MagicBlock delegation program (Rust sources under
`src/`).  Byte buffers are `List Nat` (each byte `< 256`); machine integers
are `Nat` with explicit `% 2^32` / `% 2^64` where the source truncates or
checks.  Fallible code returns `Except ProgramError`.

Source files embedded:
* `src/diff/algorithm.rs` — `compute_diff`, `detect_size_change`,
  `apply_diff_in_place`, `apply_diff_copy`, `apply_diff_impl`
* `src/diff/types.rs` — `DiffSet::try_new`, `DiffSet::diff_segment_at`
* `src/processor/fast/commit_state.rs` — `process_commit_state_internal`
* `src/processor/fast/commit_diff.rs` — `process_commit_diff`
* `src/processor/fast/finalize.rs` — `process_finalize`,
  `settle_lamports_balance`
* `src/processor/fast/delegate.rs` — `process_delegate`
* `src/processor/fast/utils/pda.rs` — `create_pda`, `close_pda`
* `src/processor/fast/utils/requires.rs` — the `require_*` guards

The on-chain runtime pieces that the repository treats as collaborators
(PDA address derivation, the Rent sysvar, the system program) and the
`state`/`pda`/`consts` modules that are not present under `src/` are
modelled from the spec where noted.
-/

/-- `2^32`, the bound of the `u32` wire integers of the diff codec. -/
def U32 : Nat := 4294967296

/-- `2^64`, the bound of the `u64` lamport balances. -/
def U64 : Nat := 18446744073709551616

/-- Little-endian 4-byte encoding of a `u32` value (`(x as u32).to_le_bytes()`
in the source; the cast truncation is absorbed by the `% 256` of each byte). -/
def leBytes4 (n : Nat) : List Nat :=
  [n % 256, n / 256 % 256, n / 65536 % 256, n / 16777216 % 256]

/-- Little-endian 4-byte decoding of a `u32` value. -/
def leVal4 (b0 b1 b2 b3 : Nat) : Nat :=
  b0 + 256 * b1 + 65536 * b2 + 16777216 * b3

/-- Byte of a buffer at an index, `0` out of range (in-range at every use
that models a source read). -/
def byteAt : List Nat → Nat → Nat
  | [], _ => 0
  | b :: _, 0 => b
  | _ :: l, i + 1 => byteAt l i

/-- Read the little-endian `u32` starting at byte offset `i`
(models `*(buf.add(i) as *const u32)` on a little-endian target). -/
def readU32 (l : List Nat) (i : Nat) : Nat :=
  leVal4 (byteAt l i) (byteAt l (i + 1)) (byteAt l (i + 2)) (byteAt l (i + 3))

/-- Embedding of `pinocchio::program_error::ProgramError` (the variants this
program uses).  `Custom c` carries a `DlpError` discriminant from
`src/error.rs`.  `runtimeFault` models a Rust panic (aborts the transaction,
like an error): it is never reached on the paths the source exercises. -/
inductive ProgramError where
  | InvalidInstructionData
  | InvalidAccountOwner
  | InvalidAccountData
  | MissingRequiredSignature
  | InvalidSeeds
  | Immutable
  | IncorrectProgramId
  | NotEnoughAccountKeys
  | BorshIoError
  | ArithmeticOverflow
  | InsufficientFunds
  | Custom (code : Nat)
  | runtimeFault
deriving Repr, DecidableEq

/-- `DlpError` discriminants, from `src/error.rs` (`Custom(e as u32)`). -/
def DlpError.InvalidAuthority : ProgramError := ProgramError.Custom 0
def DlpError.InvalidDelegatedAccount : ProgramError := ProgramError.Custom 4
def DlpError.InvalidDelegatedState : ProgramError := ProgramError.Custom 5
def DlpError.InvalidReimbursementAccount : ProgramError := ProgramError.Custom 6
def DlpError.InvalidWhitelistProgramConfig : ProgramError := ProgramError.Custom 10
def DlpError.AlreadyUndelegated : ProgramError := ProgramError.Custom 11
def DlpError.NonceOutOfOrder : ProgramError := ProgramError.Custom 12
def DlpError.Overflow : ProgramError := ProgramError.Custom 13
def DlpError.TooManySeeds : ProgramError := ProgramError.Custom 14
def DlpError.InvalidDiff : ProgramError := ProgramError.Custom 15
def DlpError.InvalidDiffAlignment : ProgramError := ProgramError.Custom 16
def DlpError.CommitStateInvalidAccountOwner : ProgramError := ProgramError.Custom 19
def DlpError.CommitStateAlreadyInitialized : ProgramError := ProgramError.Custom 20
def DlpError.CommitRecordInvalidAccountOwner : ProgramError := ProgramError.Custom 23
def DlpError.CommitRecordAlreadyInitialized : ProgramError := ProgramError.Custom 24
def DlpError.DelegationRecordInvalidAccountOwner : ProgramError := ProgramError.Custom 27
def DlpError.DelegationRecordAlreadyInitialized : ProgramError := ProgramError.Custom 28
def DlpError.DelegationMetadataInvalidAccountOwner : ProgramError := ProgramError.Custom 31
def DlpError.DelegationMetadataAlreadyInitialized : ProgramError := ProgramError.Custom 32

/-! ## Diff codec (`src/diff/types.rs`, `src/diff/algorithm.rs`) -/

/-- `SizeChanged` from `src/diff/types.rs`. -/
inductive SizeChanged where
  | Expanded (n : Nat)
  | Shrunk (n : Nat)
deriving Repr, DecidableEq

/-- Parsed view of an encoded diff (`DiffSet` from `src/diff/types.rs`).
`offset_pairs` holds `(offset_in_diff, offset_in_data)` pairs. -/
structure DiffSet where
  changed_len : Nat
  segments_count : Nat
  offset_pairs : List (Nat × Nat)
  concat_diff : List Nat
deriving Repr, DecidableEq

/-- Read `count` consecutive `OffsetPair`s starting at byte offset `base`
(the source reads them through a raw, bounds-guaranteed pointer). -/
def readPairs (l : List Nat) (base : Nat) : Nat → List (Nat × Nat)
  | 0 => []
  | count + 1 => (readU32 l base, readU32 l (base + 4)) :: readPairs l (base + 8) count

/-- `DiffSet::try_new` from `src/diff/types.rs`.  The start address of a Rust
slice has no counterpart on `List`, so the address' alignment residue is an
explicit argument `align` (the source checks `diff.as_ptr().align_offset(4)`).
`readU32 diff 0` is `changed_len`, `readU32 diff 4` is `segment_count`, and
`8 + readU32 diff 4 * 8` is `header_len`. -/
def DiffSet.try_new (align : Nat) (diff : List Nat) : Except ProgramError DiffSet :=
  if diff.length < 8 then .error DlpError.InvalidDiff
  else if align % 4 ≠ 0 then .error DlpError.InvalidDiffAlignment
  else if diff.length = 8 + readU32 diff 4 * 8 then
    if readU32 diff 4 ≠ 0 then .error DlpError.InvalidDiff
    else .ok ⟨readU32 diff 0, readU32 diff 4, [], []⟩
  else if diff.length < 8 + readU32 diff 4 * 8 then .error DlpError.InvalidDiff
  else .ok ⟨readU32 diff 0, readU32 diff 4, readPairs diff 8 (readU32 diff 4),
            diff.drop (8 + readU32 diff 4 * 8)⟩

/-- The end bound of segment `index` in `DiffSet::diff_segment_at`: the next
pair's `offset_in_diff`, or the (u32-cast) length of the concatenated bytes
for the last segment. -/
def DiffSet.segmentEnd (ds : DiffSet) (index : Nat) : Nat :=
  match ds.offset_pairs[index + 1]? with
  | some q => q.1
  | none => ds.concat_diff.length % U32

/-- `DiffSet::diff_segment_at` from `src/diff/types.rs`.  Returns the segment
bytes together with the half-open target range `[start, stop)`.  The `% U32`
terms are the source's `as u32` casts of `concat_diff.len()` and
`changed_len`. -/
def DiffSet.diff_segment_at (ds : DiffSet) (index : Nat) :
    Except ProgramError (Option (List Nat × Nat × Nat)) :=
  match ds.offset_pairs[index]? with
  | none => .ok none
  | some p =>
    if ds.segmentEnd index > ds.concat_diff.length % U32 ∨ p.1 ≥ ds.segmentEnd index
        ∨ p.2 ≥ ds.changed_len % U32 then
      .error DlpError.InvalidDiff
    else if p.2 + (ds.segmentEnd index - p.1) > ds.changed_len then
      .error DlpError.InvalidDiff
    else
      .ok (some ((ds.concat_diff.drop p.1).take (ds.segmentEnd index - p.1),
        p.2, p.2 + (ds.segmentEnd index - p.1)))

/-- `original[range].copy_from_slice(segment)`: in-bounds splice of `segment`
over `[start, stop)`; an out-of-bounds range or a length mismatch panics in
Rust, modelled by `runtimeFault`. -/
def copyWithin (buf : List Nat) (start stop : Nat) (seg : List Nat) :
    Except ProgramError (List Nat) :=
  if start ≤ stop ∧ stop ≤ buf.length ∧ seg.length = stop - start then
    .ok (buf.take start ++ seg ++ buf.drop stop)
  else .error ProgramError.runtimeFault

/-- The `for item in diffset.iter()` loop of `apply_diff_impl`: walks indices
`index, index+1, ...` with `fuel` iterations remaining.  The
`.expect("impossible ...")` on a `None` segment is the `runtimeFault` case. -/
def applyLoop (ds : DiffSet) : Nat → Nat → List Nat → Except ProgramError (List Nat)
  | _, 0, buf => .ok buf
  | index, fuel + 1, buf =>
    match ds.diff_segment_at index with
    | .error e => .error e
    | .ok none => .error ProgramError.runtimeFault
    | .ok (some (seg, start, stop)) =>
      match copyWithin buf start stop seg with
      | .error e => .error e
      | .ok buf2 => applyLoop ds (index + 1) fuel buf2

/-- `apply_diff_impl` from `src/diff/algorithm.rs`. -/
def apply_diff_impl (original : List Nat) (ds : DiffSet) : Except ProgramError (List Nat) :=
  applyLoop ds 0 ds.segments_count original

/-- `detect_size_change` from `src/diff/algorithm.rs`. -/
def detect_size_change (original : List Nat) (ds : DiffSet) : Option SizeChanged :=
  if ds.changed_len < original.length then some (.Shrunk ds.changed_len)
  else if original.length < ds.changed_len then some (.Expanded ds.changed_len)
  else none

/-- `apply_diff_in_place` from `src/diff/algorithm.rs`. -/
def apply_diff_in_place (original : List Nat) (ds : DiffSet) :
    Except ProgramError (List Nat) :=
  match detect_size_change original ds with
  | some _ => .error ProgramError.InvalidInstructionData
  | none => apply_diff_impl original ds

/-- `apply_diff_copy` from `src/diff/algorithm.rs`: copies `original`,
zero-extending or truncating it to `changed_len`, then applies the diff. -/
def apply_diff_copy (original : List Nat) (ds : DiffSet) :
    Except ProgramError (List Nat) :=
  match detect_size_change original ds with
  | some (.Expanded n) =>
    apply_diff_impl (original ++ List.replicate (n - original.length) 0) ds
  | some (.Shrunk n) => apply_diff_impl (original.take n) ds
  | none => apply_diff_impl original ds

/-- Step 1 of `compute_diff`: the double `while` loop that collects the
maximal runs of differing bytes of the common prefix, as `(start index,
changed-bytes run)` pairs.  `i` is the absolute index of the current
position; a run produced by the recursive call that starts at the very next
index is extended, exactly as the inner `while` keeps advancing `i`. -/
def scanSegments : List Nat → List Nat → Nat → List (Nat × List Nat)
  | o :: os, c :: cs, i =>
    if o = c then scanSegments os cs (i + 1)
    else
      match scanSegments os cs (i + 1) with
      | (j, seg) :: rest =>
        if j = i + 1 then (i, c :: seg) :: rest
        else (i, [c]) :: (j, seg) :: rest
      | [] => [(i, [c])]
  | _, _, _ => []

/-- Steps 1–2 of `compute_diff`: the scanned runs plus, when `changed` is
longer, the final segment covering the trailing extension. -/
def computeSegments (original changed : List Nat) : List (Nat × List Nat) :=
  if original.length < changed.length then
    scanSegments original changed 0 ++ [(original.length, changed.drop original.length)]
  else scanSegments original changed 0

/-- Offset-pair serialization of step 3 of `compute_diff`: for each segment,
emit `offset_in_diff` (running total `acc` of the segment lengths) then
`offset_in_data`. -/
def serializePairs : List (Nat × List Nat) → Nat → List Nat
  | [], _ => []
  | (off, seg) :: rest, acc =>
    leBytes4 acc ++ leBytes4 off ++ serializePairs rest (acc + seg.length)

/-- Concatenated segment bytes appended at the end of the wire format. -/
def concatSegs : List (Nat × List Nat) → List Nat
  | [] => []
  | (_, seg) :: rest => seg ++ concatSegs rest

/-- `compute_diff` from `src/diff/algorithm.rs`: `[changed_len:u32]
[segment_count:u32][(offset_in_diff,offset_in_data) pairs][segment bytes]`,
all integers little-endian (the `as u32` casts truncate via `leBytes4`). -/
def compute_diff (original changed : List Nat) : List Nat :=
  leBytes4 changed.length ++ leBytes4 (computeSegments original changed).length
    ++ serializePairs (computeSegments original changed) 0
    ++ concatSegs (computeSegments original changed)

/-! ## Account records and the chain state

The repository's `state` and `pda` modules are not under `src/`; the record
shapes below follow spec §3 "DATA MODEL"; pubkeys are abstract `Nat`s,
storage-cell address derivation is abstracted (every supplied cell is the one
at its canonical derived address — spec §6 rejects any other), and the Rent
sysvar / system program are the ledger collaborators of spec §6. -/

/-- The delegation program's own id (`crate::fast::ID`). -/
def dlpID : Nat := 1

/-- The system program id, which is the all-zeroes pubkey — hence it equals
`Pubkey::default()`, the "any validator" authority sentinel. -/
def systemID : Nat := 0

/-- `Pubkey::default()`. -/
def defaultPubkey : Nat := 0

/-- Modelled from the spec: the ledger's minimum rent-exempt balance for a
cell of `space` bytes (Rent sysvar collaborator, spec §6). -/
def rentMinimumBalance (space : Nat) : Nat := (128 + space) * 6960

/-- Modelled from the spec: `CommitRecord::size_with_discriminator()` —
8-byte discriminator + identity + account + nonce + lamports (spec §3). -/
def commitRecordSize : Nat := 88

/-- Modelled from the spec: `DelegationRecord::size_with_discriminator()`
(spec §3: owner, authority, commit_frequency_ms, delegation_slot, lamports). -/
def delegationRecordSize : Nat := 96

/-- `DelegationRecord` (spec §3). -/
structure DelegationRecord where
  owner : Nat
  authority : Nat
  commit_frequency_ms : Nat
  delegation_slot : Nat
  lamports : Nat
deriving Repr, DecidableEq

/-- `DelegationMetadata` (spec §3). -/
structure DelegationMetadata where
  seeds : List (List Nat)
  last_update_nonce : Nat
  is_undelegatable : Bool
  rent_payer : Nat
deriving Repr, DecidableEq

/-- `CommitRecord` (spec §3). -/
structure CommitRecord where
  identity : Nat
  account : Nat
  nonce : Nat
  lamports : Nat
deriving Repr, DecidableEq

/-- Modelled from the spec: `DelegationMetadata::serialized_size()` —
discriminator + Borsh seeds vector + nonce + flag + rent payer. -/
def delegationMetadataSize (seeds : List (List Nat)) : Nat :=
  8 + 4 + (seeds.map (fun s => 4 + s.length)).sum + 8 + 1 + 32

/-- The storage cells a commit/finalize invocation touches, with their owner
tags, lamport balances and (typed) contents.  A record-cell content of `none`
models an empty or undeserializable cell. -/
structure ChainState where
  validatorKey : Nat
  validatorIsSigner : Bool
  validatorLamports : Nat
  delegatedKey : Nat
  delegatedOwner : Nat
  delegatedLamports : Nat
  delegatedData : List Nat
  csOwner : Nat
  csLamports : Nat
  csData : List Nat
  crOwner : Nat
  crLamports : Nat
  crContent : Option CommitRecord
  drOwner : Nat
  drLamports : Nat
  drContent : Option DelegationRecord
  dmOwner : Nat
  dmLamports : Nat
  dmContent : Option DelegationMetadata
  vaultOwner : Nat
  vaultLamports : Nat
  configPresent : Bool
  approvedValidators : List Nat
deriving Repr, DecidableEq

/-- Lamport bookkeeping of `create_pda` (`src/processor/fast/utils/pda.rs`):
returns the payer's and the target's new balances.  A zero-balance target is
funded with the full rent-exempt minimum via `CreateAccount`; otherwise the
payer tops it up by `rent.saturating_sub(balance)`.  A system-program
transfer with an underfunded payer fails (system program collaborator). -/
def create_pda_lamports (payerLamports targetLamports space : Nat) :
    Except ProgramError (Nat × Nat) :=
  if targetLamports = 0 then
    if payerLamports < rentMinimumBalance space then .error ProgramError.InsufficientFunds
    else .ok (payerLamports - rentMinimumBalance space, rentMinimumBalance space)
  else
    if rentMinimumBalance space - targetLamports > 0 then
      if payerLamports < rentMinimumBalance space - targetLamports then
        .error ProgramError.InsufficientFunds
      else .ok (payerLamports - (rentMinimumBalance space - targetLamports),
                rentMinimumBalance space)
    else .ok (payerLamports, targetLamports)

/-- `process_commit_state_internal` from `src/processor/fast/commit_state.rs`.
All three commit entry points funnel into this function; `commitStateBytes`
is the new-state payload.  Checks appear in source order; the metadata flag
is persisted in the success state (errors roll back atomically).  The
`require_*` guards reduce to owner-tag checks because supplied addresses are
canonical by assumption (derivation abstracted). -/
def process_commit_state_internal (st : ChainState) (commitStateBytes : List Nat)
    (nonce commitLamports : Nat) (allowUndelegation : Bool) :
    Except ProgramError ChainState :=
  if st.delegatedOwner ≠ dlpID then .error ProgramError.InvalidAccountOwner
  else if ¬ st.validatorIsSigner then .error ProgramError.MissingRequiredSignature
  else if st.drOwner ≠ dlpID then .error ProgramError.InvalidAccountOwner
  else if st.dmOwner ≠ dlpID then .error ProgramError.InvalidAccountOwner
  else if st.vaultOwner ≠ dlpID then .error ProgramError.InvalidAccountOwner
  else match st.dmContent with
    | none => .error ProgramError.InvalidAccountData
    | some dm =>
      if nonce ≠ dm.last_update_nonce + 1 then .error DlpError.NonceOutOfOrder
      else if dm.is_undelegatable then .error DlpError.AlreadyUndelegated
      else match st.drContent with
        | none => .error ProgramError.InvalidAccountData
        | some dr =>
          if dr.authority ≠ st.validatorKey ∧ dr.authority ≠ defaultPubkey then
            .error DlpError.InvalidAuthority
          else if st.delegatedLamports < dr.lamports then
            .error DlpError.InvalidDelegatedState
          else if st.validatorLamports < commitLamports - dr.lamports then
            .error ProgramError.InsufficientFunds
          else if st.configPresent ∧ st.validatorKey ∉ st.approvedValidators then
            .error DlpError.InvalidWhitelistProgramConfig
          else if st.csOwner ≠ systemID then .error DlpError.CommitStateInvalidAccountOwner
          else if st.csData ≠ [] then .error DlpError.CommitStateAlreadyInitialized
          else if st.crOwner ≠ systemID then .error DlpError.CommitRecordInvalidAccountOwner
          else if st.crContent ≠ none then .error DlpError.CommitRecordAlreadyInitialized
          else match create_pda_lamports (st.validatorLamports - (commitLamports - dr.lamports))
              (st.csLamports + (commitLamports - dr.lamports)) commitStateBytes.length with
            | .error e => .error e
            | .ok (v1, csL1) =>
              match create_pda_lamports v1 st.crLamports commitRecordSize with
              | .error e => .error e
              | .ok (v2, crL1) =>
                .ok { st with
                  dmContent := some { dm with is_undelegatable := allowUndelegation },
                  validatorLamports := v2,
                  csOwner := dlpID, csLamports := csL1, csData := commitStateBytes,
                  crOwner := dlpID, crLamports := crL1,
                  crContent := some ⟨st.validatorKey, st.delegatedKey, nonce, commitLamports⟩ }

/-- `settle_lamports_balance` from `src/processor/fast/finalize.rs`, acting
on the (delegated, commit-state, validator-fee-vault) balances given the
delegation record's and the commit record's lamports.  The `checked_sub` /
`checked_add` of the transfer map to `DlpError::Overflow`. -/
def settle_lamports_balance (delegatedL csL vaultL drLamports crLamports : Nat) :
    Except ProgramError (Nat × Nat × Nat) :=
  if crLamports < drLamports then
    if delegatedL < drLamports - crLamports then .error DlpError.Overflow
    else if U64 ≤ vaultL + (drLamports - crLamports) then .error DlpError.Overflow
    else .ok (delegatedL - (drLamports - crLamports), csL, vaultL + (drLamports - crLamports))
  else if drLamports < crLamports then
    if csL < crLamports - drLamports then .error DlpError.Overflow
    else if U64 ≤ delegatedL + (crLamports - drLamports) then .error DlpError.Overflow
    else .ok (delegatedL + (crLamports - drLamports), csL - (crLamports - drLamports), vaultL)
  else .ok (delegatedL, csL, vaultL)

/-- `process_finalize` from `src/processor/fast/finalize.rs`.  The tolerated
no-op branch mirrors the `(Err(InvalidAccountOwner), Err(InvalidAccountOwner))`
pattern plus the two `is_uninitialized_account` checks; cell closing follows
`close_pda` (`checked_add` to the destination, zero the source, reassign to
the system program, resize to 0). -/
def process_finalize (st : ChainState) : Except ProgramError ChainState :=
  if ¬ st.validatorIsSigner then .error ProgramError.MissingRequiredSignature
  else if st.delegatedOwner ≠ dlpID then .error ProgramError.InvalidAccountOwner
  else if st.drOwner ≠ dlpID then .error ProgramError.InvalidAccountOwner
  else if st.dmOwner ≠ dlpID then .error ProgramError.InvalidAccountOwner
  else if st.vaultOwner ≠ dlpID then .error ProgramError.InvalidAccountOwner
  else if st.csOwner ≠ dlpID ∧ st.crOwner ≠ dlpID
      ∧ st.csOwner = systemID ∧ st.csData = []
      ∧ st.crOwner = systemID ∧ st.crContent = none then .ok st
  else if st.csOwner ≠ dlpID then .error ProgramError.InvalidAccountOwner
  else if st.crOwner ≠ dlpID then .error ProgramError.InvalidAccountOwner
  else match st.dmContent, st.drContent, st.crContent with
    | some dm, some dr, some cr =>
      if cr.account ≠ st.delegatedKey then .error DlpError.InvalidDelegatedAccount
      else if cr.identity ≠ st.validatorKey then .error DlpError.InvalidReimbursementAccount
      else match settle_lamports_balance st.delegatedLamports st.csLamports
          st.vaultLamports dr.lamports cr.lamports with
        | .error e => .error e
        | .ok (dl, csl, vl) =>
          if U64 ≤ st.validatorLamports + csl then .error ProgramError.ArithmeticOverflow
          else if U64 ≤ st.validatorLamports + csl + st.crLamports then
            .error ProgramError.ArithmeticOverflow
          else .ok { st with
            dmContent := some { dm with last_update_nonce := cr.nonce },
            drContent := some { dr with lamports := dl },
            delegatedLamports := dl,
            delegatedData := st.csData,
            vaultLamports := vl,
            csOwner := systemID, csLamports := 0, csData := [],
            crOwner := systemID, crLamports := 0, crContent := none,
            validatorLamports := st.validatorLamports + csl + st.crLamports }
    | _, _, _ => .error ProgramError.InvalidAccountData

/-- Modelled from the spec: `DiffSet::try_new_from_borsh_vec` (its definition
lives in the `diff` module file absent from `src/`).  Per the comment in
`src/args/commit_state.rs`, the diff arrives with its Borsh `Vec` prefix: a
4-byte little-endian element count followed by the bytes, which are then
parsed as a `DiffSet` (alignment guaranteed by the runtime, residue 0). -/
def DiffSet.try_new_from_borsh_vec (diff : List Nat) : Except ProgramError DiffSet :=
  if diff.length < 4 then .error DlpError.InvalidDiff
  else if readU32 diff 0 ≠ diff.length - 4 then .error DlpError.InvalidDiff
  else DiffSet.try_new 0 (diff.drop 4)

/-- `process_commit_diff` from `src/processor/fast/commit_diff.rs`: parse the
diff (a zero-segment diff only logs a warning), reconstruct the new bytes
from the delegated account's current data, and run the shared commit path. -/
def process_commit_diff (st : ChainState) (diffBytes : List Nat)
    (nonce commitLamports : Nat) (allowUndelegation : Bool) :
    Except ProgramError ChainState :=
  match DiffSet.try_new_from_borsh_vec diffBytes with
  | .error e => .error e
  | .ok ds =>
    match apply_diff_copy st.delegatedData ds with
    | .error e => .error e
    | .ok changed =>
      process_commit_state_internal st changed nonce commitLamports allowUndelegation

/-- The accounts a Delegate invocation touches
(`src/processor/fast/delegate.rs`). -/
structure DelegateState where
  payerKey : Nat
  payerIsSigner : Bool
  payerLamports : Nat
  delegatedKey : Nat
  delegatedIsSigner : Bool
  delegatedOwner : Nat
  delegatedLamports : Nat
  delegatedData : List Nat
  ownerProgramKey : Nat
  bufferData : List Nat
  drOwner : Nat
  drLamports : Nat
  drContent : Option DelegationRecord
  dmOwner : Nat
  dmLamports : Nat
  dmContent : Option DelegationMetadata
  slot : Nat
deriving Repr, DecidableEq

/-- `process_delegate` from `src/processor/fast/delegate.rs`.  PDA address
derivation (`find_program_address`) and the curve check are runtime
primitives, injected as the parameters `fpa` and `onCurve` (spec §1 treats
point validation as opaque; §9 suggests injecting identities for test).  The
delegate-buffer address check is abstracted like the other canonical-address
checks.  The final copy from a non-empty delegate buffer panics on a length
mismatch (`copy_from_slice`). -/
def process_delegate (fpa : List (List Nat) → Nat → Nat) (onCurve : Nat → Bool)
    (st : DelegateState) (seeds : List (List Nat)) (validatorArg : Option Nat)
    (commitFrequencyMs : Nat) : Except ProgramError DelegateState :=
  if st.delegatedOwner ≠ dlpID then .error ProgramError.InvalidAccountOwner
  else if ¬ st.payerIsSigner then .error ProgramError.MissingRequiredSignature
  else if ¬ st.delegatedIsSigner then .error ProgramError.MissingRequiredSignature
  else if st.drOwner ≠ systemID then .error DlpError.DelegationRecordInvalidAccountOwner
  else if st.drContent ≠ none then .error DlpError.DelegationRecordAlreadyInitialized
  else if st.dmOwner ≠ systemID then .error DlpError.DelegationMetadataInvalidAccountOwner
  else if st.dmContent ≠ none then .error DlpError.DelegationMetadataAlreadyInitialized
  else if ¬ onCurve st.delegatedKey
      ∧ ¬ (1 ≤ seeds.length ∧ seeds.length ≤ 4) then .error DlpError.TooManySeeds
  else if ¬ onCurve st.delegatedKey
      ∧ fpa seeds (if st.ownerProgramKey = systemID then dlpID else st.ownerProgramKey)
        ≠ st.delegatedKey then .error ProgramError.InvalidSeeds
  else match create_pda_lamports st.payerLamports st.drLamports delegationRecordSize with
    | .error e => .error e
    | .ok (p1, drl) =>
      match create_pda_lamports p1 st.dmLamports (delegationMetadataSize seeds) with
      | .error e => .error e
      | .ok (p2, dml) =>
        if st.bufferData ≠ [] ∧ st.bufferData.length ≠ st.delegatedData.length then
          .error ProgramError.runtimeFault
        else .ok { st with
          payerLamports := p2,
          drOwner := dlpID, drLamports := drl,
          drContent := some ⟨st.ownerProgramKey, validatorArg.getD defaultPubkey,
            commitFrequencyMs, st.slot, st.delegatedLamports⟩,
          dmOwner := dlpID, dmLamports := dml,
          dmContent := some ⟨seeds, 0, false, st.payerKey⟩,
          delegatedData := if st.bufferData ≠ [] then st.bufferData else st.delegatedData }

/-! ## Basic byte-level lemmas -/

theorem byteAt_lt_256 {l : List Nat} (h : ∀ b ∈ l, b < 256) (i : Nat) :
    byteAt l i < 256 := by
  induction l generalizing i with
  | nil => cases i <;> simp [byteAt]
  | cons b t ih =>
    cases i with
    | zero => exact h b (by simp)
    | succ j => exact ih (fun x hx => h x (by simp [hx])) j

theorem leVal4_lt_U32 {b0 b1 b2 b3 : Nat} (h0 : b0 < 256) (h1 : b1 < 256)
    (h2 : b2 < 256) (h3 : b3 < 256) : leVal4 b0 b1 b2 b3 < U32 := by
  unfold leVal4 U32
  omega

theorem readU32_lt_U32 {l : List Nat} (h : ∀ b ∈ l, b < 256) (i : Nat) :
    readU32 l i < U32 :=
  leVal4_lt_U32 (byteAt_lt_256 h i) (byteAt_lt_256 h (i + 1))
    (byteAt_lt_256 h (i + 2)) (byteAt_lt_256 h (i + 3))

theorem leVal4_leBytes4 (n : Nat) :
    leVal4 (n % 256) (n / 256 % 256) (n / 65536 % 256) (n / 16777216 % 256) = n % U32 := by
  unfold leVal4 U32
  omega

/-- The shape of a successfully parsed `DiffSet`'s `changed_len` field. -/
theorem try_new_changed_len {align : Nat} {buf : List Nat} {ds : DiffSet}
    (h : DiffSet.try_new align buf = .ok ds) : ds.changed_len = readU32 buf 0 := by
  unfold DiffSet.try_new at h
  split at h
  · exact Except.noConfusion h
  · split at h
    · exact Except.noConfusion h
    · split at h
      · split at h
        · exact Except.noConfusion h
        · cases h; rfl
      · split at h
        · exact Except.noConfusion h
        · cases h; rfl

/-- C7: the `DiffSet` parser rejects (i) every buffer shorter than the 8-byte
header minimum, (ii) every buffer whose start is not 4-byte aligned, (iii)
every buffer whose declared `segment_count` implies a header strictly longer
than the whole buffer, (iv) any adjacent offset pairs with a non-increasing
(or equal) `offset_in_diff` sequence (rejected at per-segment access), and
(v) any segment whose `offset_in_data` is at or beyond the declared
`changed_len` (rejected at per-segment access). -/
theorem diffset_parser_rejections :
    (∀ align buf, buf.length < 8 →
      DiffSet.try_new align buf = .error DlpError.InvalidDiff)
    ∧ (∀ align buf, align % 4 ≠ 0 →
      ∃ e, DiffSet.try_new align buf = .error e)
    ∧ (∀ align buf, 8 ≤ buf.length → align % 4 = 0 →
      buf.length < 8 + readU32 buf 4 * 8 →
      DiffSet.try_new align buf = .error DlpError.InvalidDiff)
    ∧ (∀ (ds : DiffSet) i p q, ds.offset_pairs[i]? = some p →
      ds.offset_pairs[i + 1]? = some q → q.1 ≤ p.1 →
      ds.diff_segment_at i = .error DlpError.InvalidDiff)
    ∧ (∀ align buf (ds : DiffSet) i p, (∀ b ∈ buf, b < 256) →
      DiffSet.try_new align buf = .ok ds → ds.offset_pairs[i]? = some p →
      ds.changed_len ≤ p.2 →
      ds.diff_segment_at i = .error DlpError.InvalidDiff) := by
  refine ⟨?_, ?_, ?_, ?_, ?_⟩
  · intro align buf h
    unfold DiffSet.try_new
    rw [if_pos h]
  · intro align buf h
    by_cases hl : buf.length < 8
    · exact ⟨DlpError.InvalidDiff, by unfold DiffSet.try_new; rw [if_pos hl]⟩
    · exact ⟨DlpError.InvalidDiffAlignment, by
        unfold DiffSet.try_new; rw [if_neg hl, if_pos h]⟩
  · intro align buf hlen halign hshort
    unfold DiffSet.try_new
    rw [if_neg (by omega), if_neg (by simp [halign]),
      if_neg (by omega : ¬ buf.length = 8 + readU32 buf 4 * 8), if_pos hshort]
  · intro ds i p q hp hq hle
    have hend : ds.segmentEnd i = q.1 := by unfold DiffSet.segmentEnd; rw [hq]
    simp only [DiffSet.diff_segment_at, hp]
    rw [if_pos (Or.inr (Or.inl (by rw [hend]; omega)))]
  · intro align buf ds i p hbytes hparse hp hdata
    have hcl : ds.changed_len < U32 := by
      rw [try_new_changed_len hparse]
      exact readU32_lt_U32 hbytes 0
    simp only [DiffSet.diff_segment_at, hp]
    rw [if_pos (Or.inr (Or.inr (by rw [Nat.mod_eq_of_lt hcl]; omega)))]

/-- Witness for C7: concrete rejected inputs for all five clauses. -/
theorem diffset_parser_rejections_witness :
    DiffSet.try_new 0 [0, 0] = .error DlpError.InvalidDiff
    ∧ (∃ e, DiffSet.try_new 1 [0, 0, 0, 0, 0, 0, 0, 0] = .error e)
    ∧ DiffSet.try_new 0 [1, 0, 0, 0, 9, 0, 0, 0] = .error DlpError.InvalidDiff
    ∧ DiffSet.diff_segment_at ⟨5, 2, [(3, 0), (2, 1)], [9, 9, 9]⟩ 0
        = .error DlpError.InvalidDiff
    ∧ DiffSet.diff_segment_at ⟨1, 1, [(0, 5)], [7]⟩ 0 = .error DlpError.InvalidDiff := by
  refine ⟨?_, ?_, ?_, ?_, ?_⟩
  · exact diffset_parser_rejections.1 0 [0, 0] (by decide)
  · exact diffset_parser_rejections.2.1 1 [0, 0, 0, 0, 0, 0, 0, 0] (by decide)
  · exact diffset_parser_rejections.2.2.1 0 [1, 0, 0, 0, 9, 0, 0, 0] (by decide)
      (by decide) (by decide)
  · exact diffset_parser_rejections.2.2.2.1 ⟨5, 2, [(3, 0), (2, 1)], [9, 9, 9]⟩ 0
      (3, 0) (2, 1) rfl rfl (by decide)
  · exact diffset_parser_rejections.2.2.2.2 0
      [1, 0, 0, 0, 1, 0, 0, 0, 0, 0, 0, 0, 5, 0, 0, 0, 7] ⟨1, 1, [(0, 5)], [7]⟩ 0
      (0, 5) (by decide) rfl rfl (by decide)

/-! ## State-machine lemmas -/

/-- Case analysis of a successful `process_finalize`: either the tolerated
no-op (both commit cells absent, state untouched), or the full settlement. -/
theorem process_finalize_ok_cases {st st' : ChainState}
    (h : process_finalize st = .ok st') :
    (st' = st ∧ st.csOwner ≠ dlpID ∧ st.crOwner ≠ dlpID ∧ st.csOwner = systemID
      ∧ st.csData = [] ∧ st.crOwner = systemID ∧ st.crContent = none)
    ∨ (∃ dm dr cr dl csl vl,
        st.dmContent = some dm ∧ st.drContent = some dr ∧ st.crContent = some cr
        ∧ st.csOwner = dlpID ∧ st.crOwner = dlpID
        ∧ settle_lamports_balance st.delegatedLamports st.csLamports st.vaultLamports
            dr.lamports cr.lamports = .ok (dl, csl, vl)
        ∧ st' = { st with
            dmContent := some { dm with last_update_nonce := cr.nonce },
            drContent := some { dr with lamports := dl },
            delegatedLamports := dl,
            delegatedData := st.csData,
            vaultLamports := vl,
            csOwner := systemID, csLamports := 0, csData := [],
            crOwner := systemID, crLamports := 0, crContent := none,
            validatorLamports := st.validatorLamports + csl + st.crLamports }) := by
  rw [process_finalize] at h
  by_cases h1 : (¬ st.validatorIsSigner : Prop)
  · rw [if_pos h1] at h; exact Except.noConfusion h
  rw [if_neg h1] at h
  by_cases h2 : st.delegatedOwner ≠ dlpID
  · rw [if_pos h2] at h; exact Except.noConfusion h
  rw [if_neg h2] at h
  by_cases h3 : st.drOwner ≠ dlpID
  · rw [if_pos h3] at h; exact Except.noConfusion h
  rw [if_neg h3] at h
  by_cases h4 : st.dmOwner ≠ dlpID
  · rw [if_pos h4] at h; exact Except.noConfusion h
  rw [if_neg h4] at h
  by_cases h5 : st.vaultOwner ≠ dlpID
  · rw [if_pos h5] at h; exact Except.noConfusion h
  rw [if_neg h5] at h
  by_cases h6 : st.csOwner ≠ dlpID ∧ st.crOwner ≠ dlpID ∧ st.csOwner = systemID
      ∧ st.csData = [] ∧ st.crOwner = systemID ∧ st.crContent = none
  · rw [if_pos h6] at h
    cases h
    exact Or.inl ⟨rfl, h6.1, h6.2.1, h6.2.2.1, h6.2.2.2.1, h6.2.2.2.2.1, h6.2.2.2.2.2⟩
  rw [if_neg h6] at h
  by_cases h7 : st.csOwner ≠ dlpID
  · rw [if_pos h7] at h; exact Except.noConfusion h
  rw [if_neg h7] at h
  by_cases h8 : st.crOwner ≠ dlpID
  · rw [if_pos h8] at h; exact Except.noConfusion h
  rw [if_neg h8] at h
  cases hdm : st.dmContent with
  | none => rw [hdm] at h; exact Except.noConfusion h
  | some dm =>
  cases hdr : st.drContent with
  | none => rw [hdm, hdr] at h; exact Except.noConfusion h
  | some dr =>
  cases hcrc : st.crContent with
  | none => rw [hdm, hdr, hcrc] at h; exact Except.noConfusion h
  | some cr =>
  rw [hdm, hdr, hcrc] at h
  dsimp only at h
  by_cases h9 : cr.account ≠ st.delegatedKey
  · rw [if_pos h9] at h; exact Except.noConfusion h
  rw [if_neg h9] at h
  by_cases h10 : cr.identity ≠ st.validatorKey
  · rw [if_pos h10] at h; exact Except.noConfusion h
  rw [if_neg h10] at h
  cases hsettle : settle_lamports_balance st.delegatedLamports st.csLamports
      st.vaultLamports dr.lamports cr.lamports with
  | error e => rw [hsettle] at h; exact Except.noConfusion h
  | ok t =>
  obtain ⟨dl, csl, vl⟩ := t
  rw [hsettle] at h
  dsimp only at h
  by_cases h11 : U64 ≤ st.validatorLamports + csl
  · rw [if_pos h11] at h; exact Except.noConfusion h
  rw [if_neg h11] at h
  by_cases h12 : U64 ≤ st.validatorLamports + csl + st.crLamports
  · rw [if_pos h12] at h; exact Except.noConfusion h
  rw [if_neg h12] at h
  cases h
  exact Or.inr ⟨dm, dr, cr, dl, csl, vl, rfl, rfl, rfl,
    not_ne_iff.mp h7, not_ne_iff.mp h8, hsettle, rfl⟩

/-- Case behavior of `settle_lamports_balance` on success. -/
theorem settle_lamports_balance_cases {dl cs vl p d dl' cs' vl' : Nat}
    (h : settle_lamports_balance dl cs vl p d = .ok (dl', cs', vl')) :
    (d < p → dl' = dl - (p - d) ∧ cs' = cs ∧ vl' = vl + (p - d))
    ∧ (p < d → dl' = dl + (d - p) ∧ cs' = cs - (d - p) ∧ vl' = vl)
    ∧ (p = d → dl' = dl ∧ cs' = cs ∧ vl' = vl) := by
  unfold settle_lamports_balance at h
  split at h
  · split at h
    · exact Except.noConfusion h
    split at h
    · exact Except.noConfusion h
    cases h
    exact ⟨fun _ => ⟨rfl, rfl, rfl⟩, fun hh => by omega, fun hh => by omega⟩
  split at h
  · split at h
    · exact Except.noConfusion h
    split at h
    · exact Except.noConfusion h
    cases h
    exact ⟨fun hh => by omega, fun _ => ⟨rfl, rfl, rfl⟩, fun hh => by omega⟩
  cases h
  exact ⟨fun hh => by omega, fun hh => by omega, fun _ => ⟨rfl, rfl, rfl⟩⟩

/-- The settlement step conserves the sum of the three balances it moves
lamports between. -/
theorem settle_lamports_balance_sum {dl cs vl p d dl' cs' vl' : Nat}
    (h : settle_lamports_balance dl cs vl p d = .ok (dl', cs', vl')) :
    dl' + cs' + vl' = dl + cs + vl := by
  unfold settle_lamports_balance at h
  split at h
  · split at h
    · exact Except.noConfusion h
    split at h
    · exact Except.noConfusion h
    cases h
    omega
  split at h
  · split at h
    · exact Except.noConfusion h
    split at h
    · exact Except.noConfusion h
    cases h
    omega
  cases h
  omega

/-- What every successful commit demands of the pre-state and writes into
the post-state. -/
theorem process_commit_ok_facts {st st' : ChainState} {b : List Nat} {n l : Nat}
    {a : Bool} (h : process_commit_state_internal st b n l a = .ok st') :
    ∃ dm dr, st.dmContent = some dm ∧ st.drContent = some dr
      ∧ n = dm.last_update_nonce + 1 ∧ dm.is_undelegatable = false
      ∧ st.csOwner = systemID ∧ st.csData = [] ∧ st.crOwner = systemID
      ∧ st.crContent = none
      ∧ st'.dmContent = some { dm with is_undelegatable := a }
      ∧ st'.csOwner = dlpID ∧ st'.crOwner = dlpID ∧ st'.csData = b
      ∧ st'.crContent = some ⟨st.validatorKey, st.delegatedKey, n, l⟩ := by
  rw [process_commit_state_internal] at h
  by_cases h1 : st.delegatedOwner ≠ dlpID
  · rw [if_pos h1] at h; exact Except.noConfusion h
  rw [if_neg h1] at h
  by_cases h2 : (¬ st.validatorIsSigner : Prop)
  · rw [if_pos h2] at h; exact Except.noConfusion h
  rw [if_neg h2] at h
  by_cases h3 : st.drOwner ≠ dlpID
  · rw [if_pos h3] at h; exact Except.noConfusion h
  rw [if_neg h3] at h
  by_cases h4 : st.dmOwner ≠ dlpID
  · rw [if_pos h4] at h; exact Except.noConfusion h
  rw [if_neg h4] at h
  by_cases h5 : st.vaultOwner ≠ dlpID
  · rw [if_pos h5] at h; exact Except.noConfusion h
  rw [if_neg h5] at h
  cases hdm : st.dmContent with
  | none => rw [hdm] at h; exact Except.noConfusion h
  | some dm =>
  rw [hdm] at h
  dsimp only at h
  by_cases h6 : n ≠ dm.last_update_nonce + 1
  · rw [if_pos h6] at h; exact Except.noConfusion h
  rw [if_neg h6] at h
  by_cases h7 : (dm.is_undelegatable : Prop)
  · rw [if_pos h7] at h; exact Except.noConfusion h
  rw [if_neg h7] at h
  cases hdr : st.drContent with
  | none => rw [hdr] at h; exact Except.noConfusion h
  | some dr =>
  rw [hdr] at h
  dsimp only at h
  by_cases h8 : dr.authority ≠ st.validatorKey ∧ dr.authority ≠ defaultPubkey
  · rw [if_pos h8] at h; exact Except.noConfusion h
  rw [if_neg h8] at h
  by_cases h9 : st.delegatedLamports < dr.lamports
  · rw [if_pos h9] at h; exact Except.noConfusion h
  rw [if_neg h9] at h
  by_cases h10 : st.validatorLamports < l - dr.lamports
  · rw [if_pos h10] at h; exact Except.noConfusion h
  rw [if_neg h10] at h
  by_cases h11 : st.configPresent ∧ st.validatorKey ∉ st.approvedValidators
  · rw [if_pos h11] at h; exact Except.noConfusion h
  rw [if_neg h11] at h
  by_cases h12 : st.csOwner ≠ systemID
  · rw [if_pos h12] at h; exact Except.noConfusion h
  rw [if_neg h12] at h
  by_cases h13 : st.csData ≠ []
  · rw [if_pos h13] at h; exact Except.noConfusion h
  rw [if_neg h13] at h
  by_cases h14 : st.crOwner ≠ systemID
  · rw [if_pos h14] at h; exact Except.noConfusion h
  rw [if_neg h14] at h
  by_cases h15 : st.crContent ≠ none
  · rw [if_pos h15] at h; exact Except.noConfusion h
  rw [if_neg h15] at h
  cases hcp1 : create_pda_lamports (st.validatorLamports - (l - dr.lamports))
      (st.csLamports + (l - dr.lamports)) b.length with
  | error e => rw [hcp1] at h; exact Except.noConfusion h
  | ok t1 =>
  obtain ⟨v1, csL1⟩ := t1
  rw [hcp1] at h
  dsimp only at h
  cases hcp2 : create_pda_lamports v1 st.crLamports commitRecordSize with
  | error e => rw [hcp2] at h; exact Except.noConfusion h
  | ok t2 =>
  obtain ⟨v2, crL1⟩ := t2
  rw [hcp2] at h
  dsimp only at h
  cases h
  exact ⟨dm, dr, rfl, rfl, not_ne_iff.mp h6, by simpa using h7,
    not_ne_iff.mp h12, not_ne_iff.mp h13, not_ne_iff.mp h14, not_ne_iff.mp h15,
    rfl, rfl, rfl, rfl, rfl⟩

/-- A successful Delegate requires an uninitialized (system-owned)
delegation-metadata cell. -/
theorem process_delegate_ok_dmOwner {fpa : List (List Nat) → Nat → Nat}
    {onCurve : Nat → Bool} {st : DelegateState} {seeds : List (List Nat)}
    {v : Option Nat} {f : Nat} {st' : DelegateState}
    (h : process_delegate fpa onCurve st seeds v f = .ok st') :
    st.dmOwner = systemID := by
  rw [process_delegate] at h
  by_cases h1 : st.delegatedOwner ≠ dlpID
  · rw [if_pos h1] at h; exact Except.noConfusion h
  rw [if_neg h1] at h
  by_cases h2 : (¬ st.payerIsSigner : Prop)
  · rw [if_pos h2] at h; exact Except.noConfusion h
  rw [if_neg h2] at h
  by_cases h3 : (¬ st.delegatedIsSigner : Prop)
  · rw [if_pos h3] at h; exact Except.noConfusion h
  rw [if_neg h3] at h
  by_cases h4 : st.drOwner ≠ systemID
  · rw [if_pos h4] at h; exact Except.noConfusion h
  rw [if_neg h4] at h
  by_cases h5 : st.drContent ≠ none
  · rw [if_pos h5] at h; exact Except.noConfusion h
  rw [if_neg h5] at h
  by_cases h6 : st.dmOwner ≠ systemID
  · rw [if_pos h6] at h; exact Except.noConfusion h
  exact not_ne_iff.mp h6

/-! ## Concrete states used by witnesses and counterexamples -/

/-- A well-formed delegated account: record and metadata initialized, nonce
history at 0, no pending commit cells, validator `7` is the authority. -/
def stBase : ChainState := {
  validatorKey := 7, validatorIsSigner := true, validatorLamports := 10000000000,
  delegatedKey := 5, delegatedOwner := dlpID, delegatedLamports := 1000,
  delegatedData := [1, 2, 3],
  csOwner := systemID, csLamports := 0, csData := [],
  crOwner := systemID, crLamports := 0, crContent := none,
  drOwner := dlpID, drLamports := 100, drContent := some ⟨9, 7, 0, 0, 1000⟩,
  dmOwner := dlpID, dmLamports := 100, dmContent := some ⟨[], 0, false, 3⟩,
  vaultOwner := dlpID, vaultLamports := 500,
  configPresent := false, approvedValidators := [] }

/-- `stBase` with the undelegatable latch set. -/
def stLatched : ChainState := { stBase with dmContent := some ⟨[], 0, true, 3⟩ }

/-- `stBase` with the delegated account underfunded relative to its record. -/
def stPoor : ChainState := { stBase with delegatedLamports := 10 }

/-- `stBase` after the accepted commit `(bytes [9], nonce 1, lamports 1000,
allow_undelegation false)`: commit cells created and rent-funded by the
validator. -/
def stAfterCommit : ChainState := { stBase with
  dmContent := some ⟨[], 0, false, 3⟩,
  validatorLamports := 9997598800,
  csOwner := dlpID, csLamports := 897840, csData := [9],
  crOwner := dlpID, crLamports := 1503360, crContent := some ⟨7, 5, 1, 1000⟩ }

/-- `stAfterCommit` after the paired successful finalize: cells closed back
to the validator, nonce advanced, state bytes copied in. -/
def stAfterFinalize : ChainState := { stAfterCommit with
  dmContent := some ⟨[], 1, false, 3⟩,
  drContent := some ⟨9, 7, 0, 0, 1000⟩,
  delegatedLamports := 1000,
  delegatedData := [9],
  vaultLamports := 500,
  csOwner := systemID, csLamports := 0, csData := [],
  crOwner := systemID, crLamports := 0, crContent := none,
  validatorLamports := 10000000000 }

/-! ## C2 — nonce ordering -/

/-- C2 (amended): on a delegated account whose metadata records
`last_update_nonce`, a commit whose nonce is not the successor always fails:
with `NonceOutOfOrder` for any payload handed to the shared commit path
(CommitState and CommitStateFromBuffer), and for CommitDiff with any error —
`NonceOutOfOrder` exactly when its diff parses and applies, the diff error
otherwise. -/
theorem commit_wrong_nonce_rejected (st : ChainState) (dm : DelegationMetadata)
    (h1 : st.delegatedOwner = dlpID) (h2 : st.validatorIsSigner = true)
    (h3 : st.drOwner = dlpID) (h4 : st.dmOwner = dlpID) (h5 : st.vaultOwner = dlpID)
    (hdm : st.dmContent = some dm) (n l : Nat) (a : Bool)
    (hn : n ≠ dm.last_update_nonce + 1) :
    (∀ bytes, process_commit_state_internal st bytes n l a
        = .error DlpError.NonceOutOfOrder)
    ∧ (∀ diffBytes, (∃ e, process_commit_diff st diffBytes n l a = .error e)
        ∧ ∀ ds changed, DiffSet.try_new_from_borsh_vec diffBytes = .ok ds →
            apply_diff_copy st.delegatedData ds = .ok changed →
            process_commit_diff st diffBytes n l a = .error DlpError.NonceOutOfOrder) := by
  have main : ∀ bytes, process_commit_state_internal st bytes n l a
      = .error DlpError.NonceOutOfOrder := by
    intro bytes
    rw [process_commit_state_internal, if_neg (by simp [h1]), if_neg (by simp [h2]),
      if_neg (by simp [h3]), if_neg (by simp [h4]), if_neg (by simp [h5]), hdm]
    dsimp only
    rw [if_pos hn]
  refine ⟨main, fun diffBytes => ⟨?_, ?_⟩⟩
  · cases hp : DiffSet.try_new_from_borsh_vec diffBytes with
    | error e => exact ⟨e, by rw [process_commit_diff, hp]⟩
    | ok ds =>
      cases ha : apply_diff_copy st.delegatedData ds with
      | error e =>
        refine ⟨e, ?_⟩
        rw [process_commit_diff, hp]
        dsimp only
        rw [ha]
      | ok changed =>
        refine ⟨DlpError.NonceOutOfOrder, ?_⟩
        rw [process_commit_diff, hp]
        dsimp only
        rw [ha]
        dsimp only
        exact main changed
  · intro ds changed hp ha
    rw [process_commit_diff, hp]
    dsimp only
    rw [ha]
    dsimp only
    exact main changed

/-- Witness for C2 (amended): nonce 5 against recorded nonce 0. -/
theorem commit_wrong_nonce_rejected_witness :
    process_commit_state_internal stBase [] 5 0 false
      = .error DlpError.NonceOutOfOrder :=
  (commit_wrong_nonce_rejected stBase ⟨[], 0, false, 3⟩ rfl rfl rfl rfl rfl rfl 5 0
    false (by decide)).1 []

/-- Counterexample for C2 as stated: a CommitDiff with a malformed diff
payload (`[9]`) and out-of-order nonce 2 (recorded nonce 0) fails with
`InvalidDiff`, not with `NonceOutOfOrder`. -/
theorem commit_wrong_nonce_counterexample :
    process_commit_diff stBase [9] 2 0 false = .error DlpError.InvalidDiff
    ∧ DlpError.InvalidDiff ≠ DlpError.NonceOutOfOrder
    ∧ stBase.dmContent = some ⟨[], 0, false, 3⟩
    ∧ (2 : Nat) ≠ 0 + 1 :=
  ⟨rfl, by decide, rfl, by decide⟩

/-! ## C3 — the undelegatable latch -/

/-- C3: once `is_undelegatable` is latched, (i) every commit through the
shared path fails, (ii) with `AlreadyUndelegated` when the nonce is the
correct successor, (iii) every CommitDiff fails, (iv) a successful Finalize
never resets a latched flag, and (v) Delegate refuses to run on an account
whose metadata cell still exists — so only Undelegate's destruction of the
metadata clears the latch. -/
theorem undelegatable_latch (st : ChainState) (dm : DelegationMetadata)
    (h1 : st.delegatedOwner = dlpID) (h2 : st.validatorIsSigner = true)
    (h3 : st.drOwner = dlpID) (h4 : st.dmOwner = dlpID) (h5 : st.vaultOwner = dlpID)
    (hdm : st.dmContent = some dm) (hflag : dm.is_undelegatable = true) :
    (∀ bytes n l a, ∃ e, process_commit_state_internal st bytes n l a = .error e)
    ∧ (∀ bytes l a, process_commit_state_internal st bytes (dm.last_update_nonce + 1) l a
        = .error DlpError.AlreadyUndelegated)
    ∧ (∀ diffBytes n l a st', process_commit_diff st diffBytes n l a ≠ .ok st')
    ∧ (∀ (st₀ st' : ChainState) dm₀, process_finalize st₀ = .ok st' →
        st₀.dmContent = some dm₀ → dm₀.is_undelegatable = true →
        ∃ dm', st'.dmContent = some dm' ∧ dm'.is_undelegatable = true)
    ∧ (∀ fpa onCurve (dst : DelegateState) seeds v f st', dst.dmOwner = dlpID →
        process_delegate fpa onCurve dst seeds v f ≠ .ok st') := by
  have part2 : ∀ bytes l a,
      process_commit_state_internal st bytes (dm.last_update_nonce + 1) l a
        = .error DlpError.AlreadyUndelegated := by
    intro bytes l a
    rw [process_commit_state_internal, if_neg (by simp [h1]), if_neg (by simp [h2]),
      if_neg (by simp [h3]), if_neg (by simp [h4]), if_neg (by simp [h5]), hdm]
    dsimp only
    rw [if_neg (by simp), if_pos (by simp [hflag])]
  have part1 : ∀ bytes n l a, ∃ e,
      process_commit_state_internal st bytes n l a = .error e := by
    intro bytes n l a
    by_cases hn : n = dm.last_update_nonce + 1
    · subst hn
      exact ⟨DlpError.AlreadyUndelegated, part2 bytes l a⟩
    · refine ⟨DlpError.NonceOutOfOrder, ?_⟩
      rw [process_commit_state_internal, if_neg (by simp [h1]), if_neg (by simp [h2]),
        if_neg (by simp [h3]), if_neg (by simp [h4]), if_neg (by simp [h5]), hdm]
      dsimp only
      rw [if_pos hn]
  refine ⟨part1, part2, ?_, ?_, ?_⟩
  · intro diffBytes n l a st' hcontra
    rw [process_commit_diff] at hcontra
    cases hp : DiffSet.try_new_from_borsh_vec diffBytes with
    | error e => rw [hp] at hcontra; exact Except.noConfusion hcontra
    | ok ds =>
      rw [hp] at hcontra
      dsimp only at hcontra
      cases ha : apply_diff_copy st.delegatedData ds with
      | error e => rw [ha] at hcontra; exact Except.noConfusion hcontra
      | ok changed =>
        rw [ha] at hcontra
        dsimp only at hcontra
        obtain ⟨dm', _, hdm', _, _, hflag', _⟩ := process_commit_ok_facts hcontra
        rw [hdm] at hdm'
        cases hdm'
        rw [hflag] at hflag'
        exact Bool.noConfusion hflag'
  · intro st₀ st' dm₀ hfin hdm₀ hflag₀
    rcases process_finalize_ok_cases hfin with ⟨heq, _⟩ | ⟨dm₁, _, cr, _, _, _, hdm₁, _, _, _, _, _, heq⟩
    · exact ⟨dm₀, by rw [heq, hdm₀], hflag₀⟩
    · rw [hdm₀] at hdm₁
      cases hdm₁
      refine ⟨{ dm₀ with last_update_nonce := cr.nonce }, by rw [heq], hflag₀⟩
  · intro fpa onCurve dst seeds v f st' hdmo hcontra
    have hsys := process_delegate_ok_dmOwner hcontra
    exact absurd (hdmo.symm.trans hsys) (by decide)

/-- Witness for C3: the latched state rejects the correctly-numbered commit
with `AlreadyUndelegated`. -/
theorem undelegatable_latch_witness :
    process_commit_state_internal stLatched [] 1 0 false
      = .error DlpError.AlreadyUndelegated :=
  (undelegatable_latch stLatched ⟨[], 0, true, 3⟩ rfl rfl rfl rfl rfl rfl rfl).2.1
    [] 0 false

/-! ## C9 — the delegated-balance consistency guard -/

/-- C9: whenever the delegated account holds strictly fewer lamports than its
DelegationRecord records, a commit that clears the earlier checks fails with
`InvalidDelegatedState`; the error aborts before either commit cell is
created (an `.error` result leaves every cell untouched). -/
theorem commit_invalid_delegated_state_guard (st : ChainState)
    (dm : DelegationMetadata) (dr : DelegationRecord)
    (h1 : st.delegatedOwner = dlpID) (h2 : st.validatorIsSigner = true)
    (h3 : st.drOwner = dlpID) (h4 : st.dmOwner = dlpID) (h5 : st.vaultOwner = dlpID)
    (hdm : st.dmContent = some dm) (hdr : st.drContent = some dr)
    (hflag : dm.is_undelegatable = false)
    (hauth : dr.authority = st.validatorKey ∨ dr.authority = defaultPubkey)
    (hbal : st.delegatedLamports < dr.lamports) (bytes : List Nat) (l : Nat) (a : Bool) :
    process_commit_state_internal st bytes (dm.last_update_nonce + 1) l a
      = .error DlpError.InvalidDelegatedState := by
  rw [process_commit_state_internal, if_neg (by simp [h1]), if_neg (by simp [h2]),
    if_neg (by simp [h3]), if_neg (by simp [h4]), if_neg (by simp [h5]), hdm]
  dsimp only
  rw [if_neg (by simp), if_neg (by simp [hflag]), hdr]
  dsimp only
  rw [if_neg (by rcases hauth with h | h <;> simp [h]), if_pos hbal]

/-- Witness for C9: delegated balance 10 against recorded 1000. -/
theorem commit_invalid_delegated_state_guard_witness :
    process_commit_state_internal stPoor [] 1 0 false
      = .error DlpError.InvalidDelegatedState :=
  commit_invalid_delegated_state_guard stPoor ⟨[], 0, false, 3⟩ ⟨9, 7, 0, 0, 1000⟩
    rfl rfl rfl rfl rfl rfl rfl rfl (Or.inl rfl) (by decide) [] 0 false

/-! ## C5 — Finalize's tolerated no-op -/

/-- C5: (i) when both commit cells are absent (system-owned and empty) a
Finalize that clears the account checks succeeds without mutating any
account; (ii)/(iii) a Finalize where exactly one of the two cells exists
fails, whatever the rest of the state; (iv) a duplicate commit against an
existing CommitState cell fails — the absent-absent Finalize is the only
tolerated no-op. -/
theorem finalize_noop_both_absent :
    (∀ st : ChainState, st.validatorIsSigner = true → st.delegatedOwner = dlpID →
      st.drOwner = dlpID → st.dmOwner = dlpID → st.vaultOwner = dlpID →
      st.csOwner = systemID → st.csData = [] → st.crOwner = systemID →
      st.crContent = none → process_finalize st = .ok st)
    ∧ (∀ (st st' : ChainState), st.csOwner = dlpID → st.crOwner = systemID →
        st.crContent = none → process_finalize st ≠ .ok st')
    ∧ (∀ (st st' : ChainState), st.csOwner = systemID → st.csData = [] →
        st.crOwner = dlpID → process_finalize st ≠ .ok st')
    ∧ (∀ (st : ChainState) bytes n l a st', st.csOwner = dlpID →
        process_commit_state_internal st bytes n l a ≠ .ok st') := by
  refine ⟨?_, ?_, ?_, ?_⟩
  · intro st hsig hdo hdro hdmo hvo hcs hcsd hcr hcrc
    rw [process_finalize, if_neg (by simp [hsig]), if_neg (by simp [hdo]),
      if_neg (by simp [hdro]), if_neg (by simp [hdmo]), if_neg (by simp [hvo]),
      if_pos ⟨by simp [hcs, systemID, dlpID], by simp [hcr, systemID, dlpID],
        hcs, hcsd, hcr, hcrc⟩]
  · intro st st' hcs hcr hcrc hcontra
    rcases process_finalize_ok_cases hcontra with ⟨_, hne, _⟩ | ⟨_, _, _, _, _, _, _, _, _, _, hcro, _, _⟩
    · exact hne hcs
    · exact absurd (hcr.symm.trans hcro) (by decide)
  · intro st st' hcs hcsd hcr hcontra
    rcases process_finalize_ok_cases hcontra with ⟨_, _, hne, _⟩ | ⟨_, _, _, _, _, _, _, _, _, hcso, _, _, _⟩
    · exact hne hcr
    · exact absurd (hcs.symm.trans hcso) (by decide)
  · intro st bytes n l a st' hcs hcontra
    obtain ⟨_, _, _, _, _, _, hcso, _⟩ := process_commit_ok_facts hcontra
    exact absurd (hcs.symm.trans hcso) (by decide)

/-- Witness for C5: `stBase` (no pending commit cells) finalizes to itself. -/
theorem finalize_noop_both_absent_witness :
    process_finalize stBase = .ok stBase :=
  finalize_noop_both_absent.1 stBase rfl rfl rfl rfl rfl rfl rfl rfl rfl

/-! ## C6 — lamport settlement at Finalize -/

/-- C6: the settlement step compares the delegation record's lamports
(`p`, prior) with the commit record's (`d`, declared): prior exceeding
declared moves exactly the difference from the delegated account to the
validator fee vault; declared exceeding prior moves exactly the difference
from the CommitState cell to the delegated account; equality moves nothing.
The second clause reads the effect off a whole successful finalize. -/
theorem finalize_lamport_settlement :
    (∀ dl cs vl p d dl' cs' vl',
      settle_lamports_balance dl cs vl p d = .ok (dl', cs', vl') →
      ((d < p → dl' = dl - (p - d) ∧ cs' = cs ∧ vl' = vl + (p - d))
       ∧ (p < d → dl' = dl + (d - p) ∧ cs' = cs - (d - p) ∧ vl' = vl)
       ∧ (p = d → dl' = dl ∧ cs' = cs ∧ vl' = vl)))
    ∧ (∀ (st st' : ChainState) dr cr, process_finalize st = .ok st' →
        st.csOwner = dlpID → st.drContent = some dr → st.crContent = some cr →
        ((cr.lamports < dr.lamports →
          st'.delegatedLamports = st.delegatedLamports - (dr.lamports - cr.lamports)
          ∧ st'.vaultLamports = st.vaultLamports + (dr.lamports - cr.lamports))
         ∧ (dr.lamports < cr.lamports →
          st'.delegatedLamports = st.delegatedLamports + (cr.lamports - dr.lamports)
          ∧ st'.vaultLamports = st.vaultLamports)
         ∧ (dr.lamports = cr.lamports →
          st'.delegatedLamports = st.delegatedLamports
          ∧ st'.vaultLamports = st.vaultLamports))) := by
  constructor
  · intro dl cs vl p d dl' cs' vl' h
    exact settle_lamports_balance_cases h
  · intro st st' dr cr hfin hcs hdr hcr
    rcases process_finalize_ok_cases hfin with ⟨_, hne, _⟩ | ⟨dm₁, dr₁, cr₁, dl, csl, vl, _, hdr₁, hcr₁, _, _, hsettle, heq⟩
    · exact absurd hcs hne
    · rw [hdr] at hdr₁
      cases hdr₁
      rw [hcr] at hcr₁
      cases hcr₁
      obtain ⟨hgt, hlt, heqc⟩ := settle_lamports_balance_cases hsettle
      subst heq
      dsimp only
      exact ⟨fun hc => ⟨(hgt hc).1, (hgt hc).2.2⟩, fun hc => ⟨(hlt hc).1, (hlt hc).2.2⟩,
        fun hc => ⟨(heqc hc).1, (heqc hc).2.2⟩⟩

/-- Witness for C6: the equal-balances case of the concrete commit+finalize
pair — no lamports move in the settlement step. -/
theorem finalize_lamport_settlement_witness :
    stAfterFinalize.delegatedLamports = stAfterCommit.delegatedLamports
    ∧ stAfterFinalize.vaultLamports = stAfterCommit.vaultLamports :=
  (finalize_lamport_settlement.2 stAfterCommit stAfterFinalize ⟨9, 7, 0, 0, 1000⟩
    ⟨7, 5, 1, 1000⟩ (by rfl) rfl rfl rfl).2.2 rfl

/-! ## C4 — lamport conservation across a Commit+Finalize pair -/

/-- C4 (amended): across every accepted commit and its paired successful
finalize, the sum of lamports over the five accounts that lamports move
between — delegated account, CommitState cell, CommitRecord cell, validator
fee vault, and the validator itself — is conserved from just after the
commit to just after the finalize.  (The three-account sum of the original
claim is not conserved: closing the CommitState cell refunds its rent-exempt
balance to the validator, not to the vault — see the counterexample.) -/
theorem commit_finalize_lamport_conservation (st : ChainState) (bytes : List Nat)
    (n l : Nat) (a : Bool) (st1 st2 : ChainState)
    (_hc : process_commit_state_internal st bytes n l a = .ok st1)
    (hf : process_finalize st1 = .ok st2) :
    st2.delegatedLamports + st2.csLamports + st2.crLamports + st2.vaultLamports
      + st2.validatorLamports
    = st1.delegatedLamports + st1.csLamports + st1.crLamports + st1.vaultLamports
      + st1.validatorLamports := by
  rcases process_finalize_ok_cases hf with ⟨heq, _⟩ | ⟨dm, dr, cr, dl, csl, vl, _, _, _, _, _, hsettle, heq⟩
  · rw [heq]
  · have hsum := settle_lamports_balance_sum hsettle
    subst heq
    dsimp only
    omega

/-- Witness for C4 (amended): the concrete pair conserves the five-account
sum. -/
theorem commit_finalize_lamport_conservation_witness :
    stAfterFinalize.delegatedLamports + stAfterFinalize.csLamports
      + stAfterFinalize.crLamports + stAfterFinalize.vaultLamports
      + stAfterFinalize.validatorLamports
    = stAfterCommit.delegatedLamports + stAfterCommit.csLamports
      + stAfterCommit.crLamports + stAfterCommit.vaultLamports
      + stAfterCommit.validatorLamports :=
  commit_finalize_lamport_conservation stBase [9] 1 1000 false stAfterCommit
    stAfterFinalize (by rfl) (by rfl)

/-- The three-account sums `{delegated, CommitState, validator-fee-vault}`
immediately after the concrete commit and after its paired finalize. -/
def commitFinalizeThreeSums : Option (Nat × Nat) :=
  match process_commit_state_internal stBase [9] 1 1000 false with
  | .ok st1 =>
    match process_finalize st1 with
    | .ok st2 => some (st1.delegatedLamports + st1.csLamports + st1.vaultLamports,
        st2.delegatedLamports + st2.csLamports + st2.vaultLamports)
    | .error _ => none
  | .error _ => none

/-- Counterexample for C4 as stated: the three-account sum drops by the
CommitState cell's rent-exempt balance (897840 lamports, refunded to the
validator at close), so 899340 after the commit against 1500 after the
finalize. -/
theorem commit_finalize_three_sum_counterexample :
    commitFinalizeThreeSums = some (899340, 1500) ∧ (899340 : Nat) ≠ 1500 :=
  ⟨rfl, by decide⟩

/-! ## C8 — seed verification at Delegate -/

/-- `create_pda_lamports` can only fail with `InsufficientFunds`. -/
theorem create_pda_lamports_error {p t s : Nat} {e : ProgramError}
    (h : create_pda_lamports p t s = .error e) : e = ProgramError.InsufficientFunds := by
  unfold create_pda_lamports at h
  split at h
  · split at h
    · cases h; rfl
    · exact Except.noConfusion h
  · split at h
    · split at h
      · cases h; rfl
      · exact Except.noConfusion h
    · exact Except.noConfusion h

/-- C8 (amended): at Delegate with an off-curve delegated address, a seed
list of 1 to 4 components is accepted for verification against the derived
address (`InvalidSeeds` when the derivation disagrees, never a seed-count
error when it agrees), while a list with more than 4 components — or an
empty one — is rejected with `TooManySeeds`. -/
theorem delegate_seed_verification (fpa : List (List Nat) → Nat → Nat)
    (onCurve : Nat → Bool) (st : DelegateState) (seeds : List (List Nat))
    (v : Option Nat) (f : Nat)
    (h1 : st.delegatedOwner = dlpID) (h2 : st.payerIsSigner = true)
    (h3 : st.delegatedIsSigner = true) (h4 : st.drOwner = systemID)
    (h5 : st.drContent = none) (h6 : st.dmOwner = systemID)
    (h7 : st.dmContent = none) (hoff : onCurve st.delegatedKey = false) :
    (seeds.length = 0 ∨ 4 < seeds.length →
      process_delegate fpa onCurve st seeds v f = .error DlpError.TooManySeeds)
    ∧ (1 ≤ seeds.length → seeds.length ≤ 4 →
      fpa seeds (if st.ownerProgramKey = systemID then dlpID else st.ownerProgramKey)
          ≠ st.delegatedKey →
      process_delegate fpa onCurve st seeds v f = .error ProgramError.InvalidSeeds)
    ∧ (1 ≤ seeds.length → seeds.length ≤ 4 →
      fpa seeds (if st.ownerProgramKey = systemID then dlpID else st.ownerProgramKey)
          = st.delegatedKey →
      process_delegate fpa onCurve st seeds v f ≠ .error DlpError.TooManySeeds
      ∧ process_delegate fpa onCurve st seeds v f ≠ .error ProgramError.InvalidSeeds) := by
  refine ⟨?_, ?_, ?_⟩
  · intro hlen
    rw [process_delegate, if_neg (by simp [h1]), if_neg (by simp [h2]),
      if_neg (by simp [h3]), if_neg (by simp [h4]), if_neg (by simp [h5]),
      if_neg (by simp [h6]), if_neg (by simp [h7]),
      if_pos ⟨by simp [hoff], by omega⟩]
  · intro hl1 hl2 hne
    rw [process_delegate, if_neg (by simp [h1]), if_neg (by simp [h2]),
      if_neg (by simp [h3]), if_neg (by simp [h4]), if_neg (by simp [h5]),
      if_neg (by simp [h6]), if_neg (by simp [h7]),
      if_neg (fun hc => hc.2 ⟨hl1, hl2⟩), if_pos ⟨by simp [hoff], hne⟩]
  · intro hl1 hl2 heq
    rw [process_delegate, if_neg (by simp [h1]), if_neg (by simp [h2]),
      if_neg (by simp [h3]), if_neg (by simp [h4]), if_neg (by simp [h5]),
      if_neg (by simp [h6]), if_neg (by simp [h7]),
      if_neg (fun hc => hc.2 ⟨hl1, hl2⟩), if_neg (fun hc => hc.2 heq)]
    cases hcp1 : create_pda_lamports st.payerLamports st.drLamports delegationRecordSize with
    | error e =>
      have he := create_pda_lamports_error hcp1
      subst he
      exact ⟨by simp [DlpError.TooManySeeds], by simp⟩
    | ok t1 =>
      obtain ⟨p1, drl⟩ := t1
      dsimp only
      cases hcp2 : create_pda_lamports p1 st.dmLamports (delegationMetadataSize seeds) with
      | error e =>
        have he := create_pda_lamports_error hcp2
        subst he
        exact ⟨by simp [DlpError.TooManySeeds], by simp⟩
      | ok t2 =>
        obtain ⟨p2, dml⟩ := t2
        dsimp only
        by_cases hbuf : st.bufferData ≠ [] ∧ st.bufferData.length ≠ st.delegatedData.length
        · rw [if_pos hbuf]
          exact ⟨by simp [DlpError.TooManySeeds], by simp⟩
        · rw [if_neg hbuf]
          exact ⟨by simp, by simp⟩

/-- A delegate invocation environment: off-curve account `5`, owner program
`9`, empty record and metadata cells. -/
def stDel : DelegateState := {
  payerKey := 3, payerIsSigner := true, payerLamports := 10000000000,
  delegatedKey := 5, delegatedIsSigner := true, delegatedOwner := dlpID,
  delegatedLamports := 1000, delegatedData := [1, 2, 3],
  ownerProgramKey := 9, bufferData := [],
  drOwner := systemID, drLamports := 0, drContent := none,
  dmOwner := systemID, dmLamports := 0, dmContent := none,
  slot := 42 }

/-- A derivation oracle that re-derives the delegated address `5` for every
seed list, and one that never does. -/
def fpaConst : List (List Nat) → Nat → Nat := fun _ _ => 5

def fpaBad : List (List Nat) → Nat → Nat := fun _ _ => 6

/-- A curve oracle under which every address is off-curve (derived). -/
def offCurve : Nat → Bool := fun _ => false

/-- Counterexample for C8 as stated: the empty seed list — a list of "up to
4" components whose derivation would even match the delegated address — is
rejected with `TooManySeeds` instead of being accepted for verification. -/
theorem delegate_seed_verification_counterexample :
    process_delegate fpaConst offCurve stDel [] none 0 = .error DlpError.TooManySeeds
    ∧ ([] : List (List Nat)).length ≤ 4
    ∧ fpaConst [] 9 = stDel.delegatedKey :=
  ⟨rfl, by decide, rfl⟩

/-- Witness for C8 (amended): five seed components are rejected with
`TooManySeeds`; one component with a mismatched derivation is rejected with
`InvalidSeeds`. -/
theorem delegate_seed_verification_witness :
    process_delegate fpaConst offCurve stDel [[1], [2], [3], [4], [5]] none 0
      = .error DlpError.TooManySeeds
    ∧ process_delegate fpaBad offCurve stDel [[1]] none 0
      = .error ProgramError.InvalidSeeds :=
  ⟨(delegate_seed_verification fpaConst offCurve stDel [[1], [2], [3], [4], [5]]
      none 0 rfl rfl rfl rfl rfl rfl rfl rfl).1 (Or.inr (by decide)),
   (delegate_seed_verification fpaBad offCurve stDel [[1]] none 0
      rfl rfl rfl rfl rfl rfl rfl rfl).2.1 (by decide) (by decide) (by decide)⟩

/-! ## C10 — CommitDiff with an empty diff -/

/-- Applying a zero-segment diff returns the original bytes truncated or
zero-extended to the declared `changed_len`. -/
theorem apply_diff_copy_zero_segments (orig : List Nat) (ds : DiffSet)
    (hz : ds.segments_count = 0) :
    apply_diff_copy orig ds
      = .ok (orig.take ds.changed_len
          ++ List.replicate (ds.changed_len - orig.length) 0) := by
  have himpl : ∀ buf, apply_diff_impl buf ds = .ok buf := by
    intro buf
    rw [apply_diff_impl, hz]
    rfl
  rw [apply_diff_copy, detect_size_change]
  by_cases hlt : ds.changed_len < orig.length
  · rw [if_pos hlt]
    dsimp only
    rw [himpl, Nat.sub_eq_zero_of_le (le_of_lt hlt), List.replicate_zero,
      List.append_nil]
  rw [if_neg hlt]
  by_cases hgt : orig.length < ds.changed_len
  · rw [if_pos hgt]
    dsimp only
    rw [himpl, List.take_of_length_le (by omega)]
  rw [if_neg hgt]
  dsimp only
  rw [himpl]
  have he : ds.changed_len = orig.length := by omega
  rw [he, Nat.sub_self, List.replicate_zero, List.append_nil, List.take_length]

/-- C10: a CommitDiff whose diff parses with zero segments is not rejected:
the reconstruction yields the delegated account's bytes truncated or
zero-extended to `changed_len`, and the operation is exactly the shared
commit path applied to those bytes (so it passes every state-machine check a
direct CommitState of the same bytes would pass). -/
theorem commit_diff_empty_diff (st : ChainState) (ds : DiffSet) (d : List Nat)
    (n l : Nat) (a : Bool)
    (hp : DiffSet.try_new_from_borsh_vec d = .ok ds)
    (hz : ds.segments_count = 0) :
    apply_diff_copy st.delegatedData ds
      = .ok (st.delegatedData.take ds.changed_len
          ++ List.replicate (ds.changed_len - st.delegatedData.length) 0)
    ∧ process_commit_diff st d n l a
      = process_commit_state_internal st
          (st.delegatedData.take ds.changed_len
            ++ List.replicate (ds.changed_len - st.delegatedData.length) 0) n l a := by
  have happly := apply_diff_copy_zero_segments st.delegatedData ds hz
  refine ⟨happly, ?_⟩
  rw [process_commit_diff, hp]
  dsimp only
  rw [happly]

/-- Witness for C10: an empty diff declaring `changed_len = 5` (with its
Borsh vector prefix) against the 3-byte account `[1, 2, 3]` commits the
zero-extended bytes `[1, 2, 3, 0, 0]`. -/
theorem commit_diff_empty_diff_witness :
    apply_diff_copy [1, 2, 3] ⟨5, 0, [], []⟩ = .ok [1, 2, 3, 0, 0]
    ∧ process_commit_diff stBase [8, 0, 0, 0, 5, 0, 0, 0, 0, 0, 0, 0] 1 1000 false
      = process_commit_state_internal stBase [1, 2, 3, 0, 0] 1 1000 false := by
  have h := commit_diff_empty_diff stBase ⟨5, 0, [], []⟩
    [8, 0, 0, 0, 5, 0, 0, 0, 0, 0, 0, 0] 1 1000 false (by rfl) rfl
  exact ⟨h.1, h.2⟩

/-! ## C1 groundwork: serialization lemmas -/

/-- Sum of the segment lengths (the length of the concatenated diff). -/
def sumLens : List (Nat × List Nat) → Nat
  | [] => 0
  | (_, seg) :: rest => seg.length + sumLens rest

/-- The offset pairs that `serializePairs` encodes, as values:
`(offset_in_diff, offset_in_data)` with the running total `acc`. -/
def cumPairs : List (Nat × List Nat) → Nat → List (Nat × Nat)
  | [], _ => []
  | (off, seg) :: rest, acc => (acc, off) :: cumPairs rest (acc + seg.length)

theorem byteAt_cons_succ (b : Nat) (l : List Nat) (i : Nat) :
    byteAt (b :: l) (i + 1) = byteAt l i := rfl

theorem leBytes4_length (x : Nat) : (leBytes4 x).length = 4 := rfl

theorem readU32_append (P : List Nat) (x : Nat) (R : List Nat) :
    readU32 (P ++ (leBytes4 x ++ R)) P.length = x % U32 := by
  induction P with
  | nil =>
    show readU32 (leBytes4 x ++ R) 0 = x % U32
    simp only [readU32, leBytes4, List.cons_append, byteAt]
    rw [← leVal4_leBytes4 x]
  | cons b P ih =>
    show readU32 (b :: (P ++ (leBytes4 x ++ R))) (P.length + 1) = x % U32
    simp only [readU32] at ih ⊢
    rw [show P.length + 1 + 1 = P.length + 1 + 1 from rfl]
    rw [byteAt_cons_succ, show P.length + 1 + 1 = (P.length + 1) + 1 from rfl,
      byteAt_cons_succ, show P.length + 1 + 2 = (P.length + 2) + 1 from rfl,
      byteAt_cons_succ, show P.length + 1 + 3 = (P.length + 3) + 1 from rfl,
      byteAt_cons_succ]
    exact ih

theorem serializePairs_length (segs : List (Nat × List Nat)) (acc : Nat) :
    (serializePairs segs acc).length = 8 * segs.length := by
  induction segs generalizing acc with
  | nil => rfl
  | cons p rest ih =>
    obtain ⟨off, seg⟩ := p
    simp only [serializePairs, List.length_append, leBytes4_length, ih,
      List.length_cons]
    omega

theorem concatSegs_append (xs ys : List (Nat × List Nat)) :
    concatSegs (xs ++ ys) = concatSegs xs ++ concatSegs ys := by
  induction xs with
  | nil => rfl
  | cons p rest ih =>
    obtain ⟨off, seg⟩ := p
    simp only [List.cons_append, concatSegs, List.append_eq, ih, List.append_assoc]

theorem concatSegs_length (segs : List (Nat × List Nat)) :
    (concatSegs segs).length = sumLens segs := by
  induction segs with
  | nil => rfl
  | cons p rest ih =>
    obtain ⟨off, seg⟩ := p
    simp only [concatSegs, sumLens, List.length_append, ih]

theorem sumLens_append (xs ys : List (Nat × List Nat)) :
    sumLens (xs ++ ys) = sumLens xs + sumLens ys := by
  induction xs with
  | nil => simp [sumLens]
  | cons p rest ih =>
    obtain ⟨off, seg⟩ := p
    simp only [List.cons_append, sumLens, List.append_eq, ih]
    omega

theorem cumPairs_length (segs : List (Nat × List Nat)) (acc : Nat) :
    (cumPairs segs acc).length = segs.length := by
  induction segs generalizing acc with
  | nil => rfl
  | cons p rest ih =>
    obtain ⟨off, seg⟩ := p
    simp only [cumPairs, List.length_cons, ih]

theorem cumPairs_append (xs ys : List (Nat × List Nat)) (acc : Nat) :
    cumPairs (xs ++ ys) acc = cumPairs xs acc ++ cumPairs ys (acc + sumLens xs) := by
  induction xs generalizing acc with
  | nil => simp [cumPairs, sumLens]
  | cons p rest ih =>
    obtain ⟨off, seg⟩ := p
    simp only [List.cons_append, cumPairs, List.append_eq, ih, sumLens,
      List.cons.injEq, true_and]
    rw [Nat.add_assoc]

theorem length_le_sumLens (segs : List (Nat × List Nat))
    (h : ∀ p ∈ segs, p.2 ≠ ([] : List Nat)) : segs.length ≤ sumLens segs := by
  induction segs with
  | nil => simp [sumLens]
  | cons p rest ih =>
    obtain ⟨off, seg⟩ := p
    have hs : seg ≠ [] := h (off, seg) (by simp)
    have hlen : 1 ≤ seg.length := by
      cases seg with
      | nil => exact absurd rfl hs
      | cons a t => simp
    have := ih (fun q hq => h q (by simp [hq]))
    simp only [sumLens, List.length_cons]
    omega

theorem readPairs_spec (segs : List (Nat × List Nat)) :
    ∀ (acc : Nat) (P C : List Nat),
    acc + sumLens segs < U32 → (∀ p ∈ segs, p.1 < U32) →
    readPairs (P ++ serializePairs segs acc ++ C) P.length segs.length
      = cumPairs segs acc := by
  induction segs with
  | nil => intro acc P C _ _; rfl
  | cons p rest ih =>
    obtain ⟨off, seg⟩ := p
    intro acc P C hlt hoff
    show readPairs (P ++ serializePairs ((off, seg) :: rest) acc ++ C) P.length
      (rest.length + 1) = cumPairs ((off, seg) :: rest) acc
    rw [readPairs]
    have hfirst : readU32 (P ++ serializePairs ((off, seg) :: rest) acc ++ C)
        P.length = acc := by
      have := readU32_append P acc
        (leBytes4 off ++ serializePairs rest (acc + seg.length) ++ C)
      rw [show P ++ serializePairs ((off, seg) :: rest) acc ++ C
        = P ++ (leBytes4 acc ++ (leBytes4 off ++ serializePairs rest (acc + seg.length) ++ C))
        by simp [serializePairs, List.append_assoc]]
      rw [this, Nat.mod_eq_of_lt (by have := sumLens_append; omega)]
    have hsecond : readU32 (P ++ serializePairs ((off, seg) :: rest) acc ++ C)
        (P.length + 4) = off := by
      have := readU32_append (P ++ leBytes4 acc) off
        (serializePairs rest (acc + seg.length) ++ C)
      rw [show (P ++ leBytes4 acc).length = P.length + 4 by
        simp [List.length_append, leBytes4_length]] at this
      rw [show P ++ serializePairs ((off, seg) :: rest) acc ++ C
        = (P ++ leBytes4 acc) ++ (leBytes4 off
            ++ (serializePairs rest (acc + seg.length) ++ C))
        by simp [serializePairs, List.append_assoc]]
      rw [this, Nat.mod_eq_of_lt (hoff (off, seg) (by simp))]
    have hrest : readPairs (P ++ serializePairs ((off, seg) :: rest) acc ++ C)
        (P.length + 8) rest.length = cumPairs rest (acc + seg.length) := by
      have := ih (acc + seg.length) (P ++ leBytes4 acc ++ leBytes4 off) C
        (by simp only [sumLens] at hlt; omega)
        (fun q hq => hoff q (by simp [hq]))
      rw [show (P ++ leBytes4 acc ++ leBytes4 off).length = P.length + 8 by
        simp [List.length_append, leBytes4_length]] at this
      rw [show P ++ serializePairs ((off, seg) :: rest) acc ++ C
        = (P ++ leBytes4 acc ++ leBytes4 off)
            ++ serializePairs rest (acc + seg.length) ++ C
        by simp [serializePairs, List.append_assoc]]
      exact this
    rw [hfirst, hsecond, hrest]
    rfl

/-! ## C1 groundwork: scan-loop lemmas -/

theorem scanSegments_self (l : List Nat) (i : Nat) : scanSegments l l i = [] := by
  induction l generalizing i with
  | nil => rfl
  | cons a t ih => simp [scanSegments, ih]

theorem scanSegments_bounds (os : List Nat) :
    ∀ (cs : List Nat) (i : Nat), ∀ p ∈ scanSegments os cs i,
    p.2 ≠ ([] : List Nat) ∧ i ≤ p.1 ∧ p.1 + p.2.length ≤ i + min os.length cs.length := by
  induction os with
  | nil => intro cs i p hp; cases hp
  | cons o os' ih =>
    intro cs i p hp
    cases cs with
    | nil => cases hp
    | cons c cs' =>
      simp only [scanSegments] at hp
      simp only [List.length_cons]
      by_cases hoc : o = c
      · rw [if_pos hoc] at hp
        obtain ⟨hne, hle, hbound⟩ := ih cs' (i + 1) p hp
        exact ⟨hne, by omega, by omega⟩
      · rw [if_neg hoc] at hp
        cases hrest : scanSegments os' cs' (i + 1) with
        | nil =>
          rw [hrest] at hp
          dsimp only at hp
          simp at hp
          subst hp
          exact ⟨by simp, le_refl i, by simp⟩
        | cons q tail =>
          obtain ⟨j, sg⟩ := q
          rw [hrest] at hp
          dsimp only at hp
          have hq : sg ≠ ([] : List Nat) ∧ i + 1 ≤ j
              ∧ j + sg.length ≤ i + 1 + min os'.length cs'.length :=
            ih cs' (i + 1) (j, sg) (by rw [hrest]; simp)
          have hsglen : 1 ≤ sg.length := by
            cases hsg : sg with
            | nil => exact absurd hsg hq.1
            | cons x xs => simp
          by_cases hj : j = i + 1
          · rw [if_pos hj] at hp
            rcases List.mem_cons.mp hp with hhead | htail
            · subst hhead
              refine ⟨by simp, le_refl i, ?_⟩
              simp only [List.length_cons]
              omega
            · have hmem : p ∈ scanSegments os' cs' (i + 1) := by
                rw [hrest]; simp [htail]
              obtain ⟨hne, hle, hbound⟩ := ih cs' (i + 1) p hmem
              exact ⟨hne, by omega, by omega⟩
          · rw [if_neg hj] at hp
            rcases List.mem_cons.mp hp with hhead | htail
            · subst hhead
              refine ⟨by simp, le_refl i, ?_⟩
              simp only [List.length_singleton]
              omega
            · have hmem : p ∈ scanSegments os' cs' (i + 1) := by
                rw [hrest]; exact htail
              obtain ⟨hne, hle, hbound⟩ := ih cs' (i + 1) p hmem
              exact ⟨hne, by omega, by omega⟩

theorem sumLens_scanSegments (os : List Nat) :
    ∀ (cs : List Nat) (i : Nat),
    sumLens (scanSegments os cs i) ≤ min os.length cs.length := by
  induction os with
  | nil => intro cs i; simp [scanSegments, sumLens]
  | cons o os' ih =>
    intro cs i
    cases cs with
    | nil => simp [scanSegments, sumLens]
    | cons c cs' =>
      simp only [scanSegments, List.length_cons, Nat.succ_min_succ]
      by_cases hoc : o = c
      · rw [if_pos hoc]
        have := ih cs' (i + 1)
        omega
      · rw [if_neg hoc]
        cases hrest : scanSegments os' cs' (i + 1) with
        | nil => dsimp only; simp [sumLens]
        | cons q tail =>
          obtain ⟨j, sg⟩ := q
          dsimp only
          have := ih cs' (i + 1)
          rw [hrest] at this
          by_cases hj : j = i + 1
          · rw [if_pos hj]
            simp only [sumLens, List.length_cons] at this ⊢
            omega
          · rw [if_neg hj]
            simp only [sumLens, List.length_singleton] at this ⊢
            omega

theorem scanSegments_nil_eq (os : List Nat) :
    ∀ (cs : List Nat) (i : Nat), os.length = cs.length →
    scanSegments os cs i = [] → os = cs := by
  induction os with
  | nil =>
    intro cs i hlen _
    cases cs with
    | nil => rfl
    | cons c cs' => cases hlen
  | cons o os' ih =>
    intro cs i hlen hnil
    cases cs with
    | nil => cases hlen
    | cons c cs' =>
      simp only [scanSegments] at hnil
      by_cases hoc : o = c
      · rw [if_pos hoc] at hnil
        rw [hoc, ih cs' (i + 1) (by simpa using hlen) hnil]
      · rw [if_neg hoc] at hnil
        cases hrest : scanSegments os' cs' (i + 1) with
        | nil => rw [hrest] at hnil; dsimp only at hnil; cases hnil
        | cons q tail =>
          obtain ⟨j, sg⟩ := q
          rw [hrest] at hnil
          dsimp only at hnil
          by_cases hj : j = i + 1
          · rw [if_pos hj] at hnil; cases hnil
          · rw [if_neg hj] at hnil; cases hnil

theorem scanSegments_take_os (os : List Nat) :
    ∀ (cs : List Nat) (i : Nat),
    scanSegments os cs i = scanSegments (os.take cs.length) cs i := by
  induction os with
  | nil => intro cs i; simp
  | cons o os' ih =>
    intro cs i
    cases cs with
    | nil => rfl
    | cons c cs' =>
      simp only [List.length_cons, List.take_succ_cons, scanSegments, ← ih]

theorem scanSegments_take_cs (os : List Nat) :
    ∀ (cs : List Nat) (i : Nat),
    scanSegments os cs i = scanSegments os (cs.take os.length) i := by
  induction os with
  | nil => intro cs i; rfl
  | cons o os' ih =>
    intro cs i
    cases cs with
    | nil => rfl
    | cons c cs' =>
      simp only [List.length_cons, List.take_succ_cons, scanSegments, ← ih]

theorem computeSegments_bounds (A B : List Nat) :
    ∀ p ∈ computeSegments A B, p.2 ≠ ([] : List Nat) ∧ p.1 + p.2.length ≤ B.length := by
  intro p hp
  unfold computeSegments at hp
  by_cases h : A.length < B.length
  · rw [if_pos h] at hp
    rcases List.mem_append.mp hp with hscan | hext
    · obtain ⟨hne, _, hbound⟩ := scanSegments_bounds A B 0 p hscan
      exact ⟨hne, by omega⟩
    · simp only [List.mem_singleton] at hext
      subst hext
      refine ⟨?_, ?_⟩
      · have hlen : (B.drop A.length).length = B.length - A.length := List.length_drop _ _
        intro hcon
        have hd : List.drop A.length B = [] := hcon
        rw [hd] at hlen
        simp at hlen
        omega
      · simp only [List.length_drop]
        omega
  · rw [if_neg h] at hp
    obtain ⟨hne, _, hbound⟩ := scanSegments_bounds A B 0 p hp
    exact ⟨hne, by omega⟩

theorem sumLens_computeSegments (A B : List Nat) :
    sumLens (computeSegments A B) ≤ B.length := by
  unfold computeSegments
  have hscan := sumLens_scanSegments A B 0
  by_cases h : A.length < B.length
  · rw [if_pos h, sumLens_append]
    simp only [sumLens, List.length_drop]
    omega
  · rw [if_neg h]
    omega

/-! ## C1 groundwork: parsing a computed diff -/

theorem compute_diff_shape (A B : List Nat) :
    compute_diff A B
      = leBytes4 B.length ++ (leBytes4 (computeSegments A B).length
          ++ (serializePairs (computeSegments A B) 0
            ++ concatSegs (computeSegments A B))) := by
  simp only [compute_diff, List.append_assoc]

theorem compute_diff_length (A B : List Nat) :
    (compute_diff A B).length
      = 8 + 8 * (computeSegments A B).length + sumLens (computeSegments A B) := by
  simp only [compute_diff, List.length_append, leBytes4_length, serializePairs_length,
    concatSegs_length]

theorem compute_diff_readU32_zero (A B : List Nat) (hB : B.length < U32) :
    readU32 (compute_diff A B) 0 = B.length := by
  have h := readU32_append [] B.length (leBytes4 (computeSegments A B).length
    ++ (serializePairs (computeSegments A B) 0 ++ concatSegs (computeSegments A B)))
  simp only [List.nil_append, List.length_nil] at h
  rw [compute_diff_shape, h, Nat.mod_eq_of_lt hB]

theorem compute_diff_readU32_four (A B : List Nat) (hB : B.length < U32) :
    readU32 (compute_diff A B) 4 = (computeSegments A B).length := by
  have hn : (computeSegments A B).length ≤ sumLens (computeSegments A B) :=
    length_le_sumLens _ (fun p hp => (computeSegments_bounds A B p hp).1)
  have hsum := sumLens_computeSegments A B
  have h := readU32_append (leBytes4 B.length) (computeSegments A B).length
    (serializePairs (computeSegments A B) 0 ++ concatSegs (computeSegments A B))
  simp only [leBytes4_length] at h
  rw [compute_diff_shape, h, Nat.mod_eq_of_lt (by unfold U32 at hB ⊢; omega)]

/-- Parsing the output of `compute_diff` succeeds and recovers the computed
segments, provided the changed buffer is shorter than `2^32`. -/
theorem try_new_compute_diff (A B : List Nat) (hB : B.length < U32) :
    DiffSet.try_new 0 (compute_diff A B)
      = .ok ⟨B.length, (computeSegments A B).length,
             cumPairs (computeSegments A B) 0, concatSegs (computeSegments A B)⟩ := by
  have hbounds := computeSegments_bounds A B
  have hsum := sumLens_computeSegments A B
  have hn : (computeSegments A B).length ≤ sumLens (computeSegments A B) :=
    length_le_sumLens _ (fun p hp => (hbounds p hp).1)
  have hlen := compute_diff_length A B
  rw [DiffSet.try_new, if_neg (by omega), if_neg (by decide),
    compute_diff_readU32_four A B hB, compute_diff_readU32_zero A B hB]
  by_cases hnil : computeSegments A B = []
  · rw [hnil]
    rw [if_pos (by rw [hlen, hnil]; simp [sumLens])]
    rw [if_neg (by simp)]
    rfl
  · have hpos : 0 < (computeSegments A B).length := List.length_pos.mpr hnil
    rw [if_neg (by rw [hlen]; omega), if_neg (by rw [hlen]; omega)]
    have hoff : ∀ p ∈ computeSegments A B, p.1 < U32 := by
      intro p hp
      have hb := (hbounds p hp).2
      have hl := List.length_pos.mpr (hbounds p hp).1
      unfold U32 at hB ⊢
      omega
    have hpairs := readPairs_spec (computeSegments A B) 0
      (leBytes4 B.length ++ leBytes4 (computeSegments A B).length)
      (concatSegs (computeSegments A B))
      (by unfold U32 at hB ⊢; omega) hoff
    simp only [List.length_append, leBytes4_length] at hpairs
    have h8 : 8 + (computeSegments A B).length * 8
        = (leBytes4 B.length ++ leBytes4 (computeSegments A B).length
          ++ serializePairs (computeSegments A B) 0).length := by
      simp only [List.length_append, leBytes4_length, serializePairs_length]
      omega
    have hdrop : (compute_diff A B).drop (8 + (computeSegments A B).length * 8)
        = concatSegs (computeSegments A B) := by
      rw [h8]
      exact List.drop_left _ _
    rw [hdrop]
    rw [show readPairs (compute_diff A B) 8 (computeSegments A B).length
      = cumPairs (computeSegments A B) 0 from hpairs]

/-! ## C1 groundwork: applying the parsed segments -/

/-- The cumulative effect of `apply_diff_impl`: write each `(offset, segment)`
splice into the buffer, in order. -/
def writeSegs : List Nat → List (Nat × List Nat) → List Nat
  | buf, [] => buf
  | buf, (off, seg) :: rest =>
    writeSegs (buf.take off ++ seg ++ buf.drop (off + seg.length)) rest

theorem drop_append_add (l1 l2 : List Nat) (k : Nat) :
    (l1 ++ l2).drop (l1.length + k) = l2.drop k := by
  induction l1 with
  | nil => simp
  | cons a t ih =>
    simp only [List.cons_append, List.length_cons]
    rw [show t.length + 1 + k = (t.length + k) + 1 by omega, List.drop_succ_cons]
    exact ih

/-- Accessing segment `done.length` of a `DiffSet` built from computed
segments yields exactly that segment and its target range. -/
theorem diff_segment_at_cum (cl : Nat) (done rest : List (Nat × List Nat))
    (off : Nat) (seg : List Nat) (hcl : cl < U32)
    (hall : ∀ p ∈ done ++ (off, seg) :: rest,
      p.2 ≠ ([] : List Nat) ∧ p.1 + p.2.length ≤ cl)
    (htot : sumLens (done ++ (off, seg) :: rest) < U32) :
    DiffSet.diff_segment_at ⟨cl, (done ++ (off, seg) :: rest).length,
        cumPairs (done ++ (off, seg) :: rest) 0,
        concatSegs (done ++ (off, seg) :: rest)⟩ done.length
      = .ok (some (seg, off, off + seg.length)) := by
  have hseg : seg ≠ ([] : List Nat) ∧ off + seg.length ≤ cl :=
    hall (off, seg) (by simp)
  have hsegpos : 0 < seg.length := List.length_pos.mpr hseg.1
  have hsum : sumLens (done ++ (off, seg) :: rest)
      = sumLens done + seg.length + sumLens rest := by
    rw [sumLens_append]
    simp only [sumLens]
    omega
  have hcum : cumPairs (done ++ (off, seg) :: rest) 0
      = cumPairs done 0
        ++ ((sumLens done, off) :: cumPairs rest (sumLens done + seg.length)) := by
    rw [cumPairs_append]
    simp only [cumPairs, Nat.zero_add]
  have hp0 : (cumPairs (done ++ (off, seg) :: rest) 0)[done.length]?
      = some (sumLens done, off) := by
    rw [hcum, List.getElem?_append_right (by simp [cumPairs_length])]
    simp [cumPairs_length]
  have hp1 : (cumPairs (done ++ (off, seg) :: rest) 0)[done.length + 1]?
      = (cumPairs rest (sumLens done + seg.length))[0]? := by
    rw [hcum, List.getElem?_append_right (by simp [cumPairs_length])]
    simp [cumPairs_length]
  have hconlen : (concatSegs (done ++ (off, seg) :: rest)).length
      = sumLens done + seg.length + sumLens rest := by
    rw [concatSegs_length, hsum]
  have hend : DiffSet.segmentEnd ⟨cl, (done ++ (off, seg) :: rest).length,
      cumPairs (done ++ (off, seg) :: rest) 0,
      concatSegs (done ++ (off, seg) :: rest)⟩ done.length
      = sumLens done + seg.length := by
    unfold DiffSet.segmentEnd
    rw [hp1]
    cases rest with
    | nil =>
      simp only [cumPairs, List.getElem?_nil]
      rw [hconlen]
      simp only [sumLens]
      rw [Nat.mod_eq_of_lt (by rw [hsum] at htot; simp only [sumLens] at htot; omega)]
      omega
    | cons q rest' =>
      obtain ⟨off2, seg2⟩ := q
      simp [cumPairs]
  have hdropseg : (concatSegs (done ++ (off, seg) :: rest)).drop (sumLens done)
      = seg ++ concatSegs rest := by
    rw [concatSegs_append]
    simp only [concatSegs]
    rw [← concatSegs_length done]
    exact List.drop_left _ _
  simp only [DiffSet.diff_segment_at, hp0]
  rw [hend]
  rw [if_neg (by
    rw [hconlen, Nat.mod_eq_of_lt (by rw [hsum] at htot; omega),
      Nat.mod_eq_of_lt hcl]
    simp only [not_or]
    refine ⟨by omega, by omega, by omega⟩)]
  rw [if_neg (by omega)]
  rw [show sumLens done + seg.length - sumLens done = seg.length by omega]
  rw [hdropseg, List.take_left]

/-- `apply_diff_impl`'s loop over a `DiffSet` built from computed segments is
the sequence of in-place splices `writeSegs`. -/
theorem applyLoop_writeSegs (cl : Nat) (hcl : cl < U32)
    (rest : List (Nat × List Nat)) :
    ∀ (done : List (Nat × List Nat)) (buf : List Nat),
    buf.length = cl →
    (∀ p ∈ done ++ rest, p.2 ≠ ([] : List Nat) ∧ p.1 + p.2.length ≤ cl) →
    sumLens (done ++ rest) < U32 →
    applyLoop ⟨cl, (done ++ rest).length, cumPairs (done ++ rest) 0,
        concatSegs (done ++ rest)⟩ done.length rest.length buf
      = .ok (writeSegs buf rest) := by
  induction rest with
  | nil => intro done buf hbuf hall htot; rfl
  | cons p rest' ih =>
    obtain ⟨off, seg⟩ := p
    intro done buf hbuf hall htot
    have hseg : seg ≠ ([] : List Nat) ∧ off + seg.length ≤ cl :=
      hall (off, seg) (by simp)
    have hsegpos : 0 < seg.length := List.length_pos.mpr hseg.1
    show applyLoop _ done.length (rest'.length + 1) buf = _
    rw [applyLoop]
    rw [diff_segment_at_cum cl done rest' off seg hcl hall htot]
    dsimp only
    have hcw : copyWithin buf off (off + seg.length) seg
        = .ok (buf.take off ++ seg ++ buf.drop (off + seg.length)) := by
      rw [copyWithin, if_pos ⟨by omega, by omega, by omega⟩]
    rw [hcw]
    dsimp only
    have hlen2 : (buf.take off ++ seg ++ buf.drop (off + seg.length)).length = cl := by
      simp only [List.length_append, List.length_take, List.length_drop]
      omega
    have hassoc : (done ++ [(off, seg)]) ++ rest' = done ++ (off, seg) :: rest' := by
      simp
    have hrec := ih (done ++ [(off, seg)])
      (buf.take off ++ seg ++ buf.drop (off + seg.length)) hlen2
      (by rw [hassoc]; exact hall) (by rw [hassoc]; exact htot)
    rw [hassoc] at hrec
    rw [show (done ++ [(off, seg)]).length = done.length + 1 by simp] at hrec
    rw [show writeSegs buf ((off, seg) :: rest')
      = writeSegs (buf.take off ++ seg ++ buf.drop (off + seg.length)) rest' from rfl]
    exact hrec

theorem writeSegs_append (l1 l2 : List (Nat × List Nat)) :
    ∀ buf, writeSegs buf (l1 ++ l2) = writeSegs (writeSegs buf l1) l2 := by
  induction l1 with
  | nil => intro buf; rfl
  | cons p rest ih =>
    obtain ⟨off, seg⟩ := p
    intro buf
    simp only [List.cons_append, writeSegs]
    exact ih _

/-- Writing the scanned runs of `(os, cs)` over a buffer holding `os` in the
window `[pre.length, pre.length + os.length)` replaces that window by `cs`. -/
theorem writeSegs_scan (os : List Nat) :
    ∀ (cs pre post : List Nat), os.length = cs.length →
    writeSegs (pre ++ os ++ post) (scanSegments os cs pre.length) = pre ++ cs ++ post := by
  induction os with
  | nil =>
    intro cs pre post hlen
    cases cs with
    | nil => rfl
    | cons c cs' => cases hlen
  | cons o os' ih =>
    intro cs pre post hlen
    cases cs with
    | nil => cases hlen
    | cons c cs' =>
      have hlen' : os'.length = cs'.length := by simpa using hlen
      simp only [scanSegments]
      by_cases hoc : o = c
      · rw [if_pos hoc]
        have hih := ih cs' (pre ++ [o]) post hlen'
        rw [show (pre ++ [o]).length = pre.length + 1 by simp] at hih
        rw [show pre ++ o :: os' ++ post = (pre ++ [o]) ++ os' ++ post by simp]
        rw [hih]
        subst hoc
        simp
      · rw [if_neg hoc]
        cases hrest : scanSegments os' cs' (pre.length + 1) with
        | nil =>
          dsimp only
          have hoseq : os' = cs' := scanSegments_nil_eq os' cs' (pre.length + 1) hlen' hrest
          simp only [writeSegs]
          rw [show pre ++ o :: os' ++ post = pre ++ (o :: (os' ++ post)) by simp]
          rw [List.take_left]
          rw [show pre.length + ([c] : List Nat).length = pre.length + 1 by simp]
          rw [drop_append_add, List.drop_succ_cons, List.drop_zero]
          rw [hoseq]
          simp
        | cons q tail =>
          obtain ⟨j, sg⟩ := q
          dsimp only
          have hih := ih cs' (pre ++ [c]) post hlen'
          rw [show (pre ++ [c]).length = pre.length + 1 by simp] at hih
          rw [hrest] at hih
          by_cases hj : j = pre.length + 1
          · rw [if_pos hj]
            subst hj
            rw [writeSegs]
            rw [writeSegs] at hih
            rw [show pre ++ o :: os' ++ post = pre ++ (o :: (os' ++ post)) by simp,
              List.take_left,
              show pre.length + (c :: sg).length = pre.length + (sg.length + 1) by simp,
              drop_append_add, List.drop_succ_cons]
            rw [show pre ++ [c] ++ os' ++ post = (pre ++ [c]) ++ (os' ++ post) by simp,
              show pre.length + 1 = (pre ++ [c]).length by simp,
              List.take_left,
              show (pre ++ [c]).length + sg.length = (pre ++ [c]).length + sg.length
                from rfl,
              drop_append_add] at hih
            simp only [List.append_assoc, List.cons_append, List.singleton_append]
              at hih ⊢
            exact hih
          · rw [if_neg hj]
            rw [writeSegs]
            rw [show pre ++ o :: os' ++ post = pre ++ (o :: (os' ++ post)) by simp,
              List.take_left,
              show pre.length + ([c] : List Nat).length = pre.length + 1 by simp,
              drop_append_add, List.drop_succ_cons, List.drop_zero]
            rw [show pre ++ [c] ++ (os' ++ post) = (pre ++ [c]) ++ os' ++ post by simp]
            rw [hih]
            simp

/-! ## C1 — diff round-trip -/

/-- C1 (amended): for every original buffer `A` and changed buffer `B` with
`B.length < 2^32`, parsing the computed diff succeeds, and applying it to a
copy of `A` reconstructs `B` exactly — including when `B` is longer or
shorter than `A`.  (The length bound is forced by the wire format's `u32`
`changed_len`: see the counterexample at `2^32`.) -/
theorem diff_roundtrip (A B : List Nat) (hB : B.length < U32) :
    ∃ ds, DiffSet.try_new 0 (compute_diff A B) = .ok ds
      ∧ apply_diff_copy A ds = .ok B := by
  refine ⟨_, try_new_compute_diff A B hB, ?_⟩
  have hbounds := computeSegments_bounds A B
  have hsum := sumLens_computeSegments A B
  have himpl : ∀ base : List Nat, base.length = B.length →
      apply_diff_impl base ⟨B.length, (computeSegments A B).length,
        cumPairs (computeSegments A B) 0, concatSegs (computeSegments A B)⟩
        = .ok (writeSegs base (computeSegments A B)) := by
    intro base hbase
    exact applyLoop_writeSegs B.length hB (computeSegments A B) [] base hbase
      (by simpa using hbounds) (by simpa using by omega)
  rw [apply_diff_copy, detect_size_change]
  dsimp only
  by_cases hlt : B.length < A.length
  · rw [if_pos hlt]
    dsimp only
    rw [himpl (A.take B.length) (by simp [List.length_take]; omega)]
    have hseg_eq : computeSegments A B = scanSegments (A.take B.length) B 0 := by
      unfold computeSegments
      rw [if_neg (by omega)]
      exact scanSegments_take_os A B 0
    rw [hseg_eq]
    have hcore := writeSegs_scan (A.take B.length) B [] []
      (by simp [List.length_take]; omega)
    simpa using hcore
  rw [if_neg hlt]
  by_cases hgt : A.length < B.length
  · rw [if_pos hgt]
    dsimp only
    rw [himpl (A ++ List.replicate (B.length - A.length) 0) (by simp; omega)]
    have hseg_eq : computeSegments A B
        = scanSegments A (B.take A.length) 0 ++ [(A.length, B.drop A.length)] := by
      unfold computeSegments
      rw [if_pos hgt, scanSegments_take_cs]
    rw [hseg_eq, writeSegs_append]
    have hcore := writeSegs_scan A (B.take A.length) []
      (List.replicate (B.length - A.length) 0) (by simp [List.length_take]; omega)
    simp only [List.nil_append, List.length_nil] at hcore
    rw [hcore]
    rw [writeSegs, writeSegs]
    rw [List.take_left' (by rw [List.length_take]; omega)]
    have hdropnil : (List.take A.length B
        ++ List.replicate (B.length - A.length) 0).drop
        (A.length + (List.drop A.length B).length) = [] :=
      List.drop_eq_nil_of_le (by
        simp only [List.length_append, List.length_take, List.length_drop,
          List.length_replicate]
        omega)
    rw [hdropnil]
    simp only [List.append_nil]
    rw [List.take_append_drop]
  · rw [if_neg hgt]
    dsimp only
    have heq : A.length = B.length := by omega
    rw [himpl A heq]
    have hseg_eq : computeSegments A B = scanSegments A B 0 := by
      unfold computeSegments
      rw [if_neg (by omega)]
    rw [hseg_eq]
    have hcore := writeSegs_scan A B [] [] heq
    simpa using hcore

/-- Witness for C1 (amended): a concrete expanding round trip. -/
theorem diff_roundtrip_witness :
    ∃ ds, DiffSet.try_new 0 (compute_diff [1, 2, 3] [1, 9, 3, 7, 7]) = .ok ds
      ∧ apply_diff_copy [1, 2, 3] ds = .ok [1, 9, 3, 7, 7] :=
  diff_roundtrip [1, 2, 3] [1, 9, 3, 7, 7] (by decide)

/-- Counterexample for C1 as stated: at `B.length = 2^32` the header's
`changed_len` truncates (`as u32`) to 0, so the round trip returns the empty
buffer instead of `B`. -/
theorem diff_roundtrip_counterexample :
    DiffSet.try_new 0 (compute_diff (List.replicate U32 0) (List.replicate U32 0))
      = .ok ⟨0, 0, [], []⟩
    ∧ apply_diff_copy (List.replicate U32 0) ⟨0, 0, [], []⟩ = .ok []
    ∧ ([] : List Nat) ≠ List.replicate U32 0 := by
  have hself : compute_diff (List.replicate U32 0) (List.replicate U32 0)
      = leBytes4 U32 ++ [0, 0, 0, 0] := by
    rw [compute_diff, computeSegments, if_neg (lt_irrefl _), scanSegments_self,
      List.length_replicate]
    rfl
  have hb : leBytes4 U32 = [0, 0, 0, 0] := by decide
  refine ⟨?_, ?_, ?_⟩
  · rw [hself, hb]
    rfl
  · have h := apply_diff_copy_zero_segments (List.replicate U32 0) ⟨0, 0, [], []⟩ rfl
    have hch : (DiffSet.mk 0 0 [] []).changed_len = 0 := rfl
    rw [hch, List.take_zero, Nat.zero_sub, List.replicate_zero, List.append_nil] at h
    exact h
  · intro h
    have h2 := congrArg List.length h
    simp only [List.length_nil, List.length_replicate] at h2
    exact absurd h2 (by decide)
